import Mathlib

/-!
The `Slog` adapter of gormlog between gorm's logger interface and `log/slog`

A shallow embedding of `gormlog/slog.go` together with the parts of the Go
standard library its behaviour depends on (`strings.ReplaceAll`,
`strings.Fields`, `strings.Join`, `unicode.IsSpace`, UTF-8 decoding).

Conventions of the embedding:

* A Go `string` is a sequence of bytes, not necessarily valid UTF-8.  It is a
  `List Nat`; the strings a Go program can hold are the lists whose elements
  are all below 256.  Every definition is total on all lists and every theorem
  is stated for all lists, so it holds in particular for the real ones.
* `int`, `int64` and `time.Duration` values are `Int`.  The code only compares
  and prints them, it never does arithmetic on them, so no wrap-around occurs.
* A finite `float64` is a sign, a significand and a binary exponent; the
  conversion from `int64`, the division and the verb `%.3f` round exactly as
  IEEE 754 and `strconv` do (to nearest, ties to even).
* `Trace` reads its receiver through the pointer, once before it calls the
  callback and again after it.  The `Slog` it points to is therefore part of
  the memory the callback works on (`World`), and the `switch` reads it there.
* A call of the package-level `slog.ErrorContext` / `slog.WarnContext` /
  `slog.InfoContext` is one emitted line: it is recorded as a `slog.Record`.
-/

namespace Gormlog

/-! ## Go strings -/

/-- A Go string, as its bytes. -/
abbrev GoString := List Nat

/-- The bytes of a string literal of the source that is pure ASCII. -/
def lit (s : String) : GoString := s.data.map Char.toNat

/-! ### `unicode/utf8` -/

namespace utf8

/-- The constant `utf8.RuneError`, U+FFFD. -/
def RuneError : Nat := 0xFFFD

/-- The constant `utf8.RuneSelf`: bytes below it are single-byte runes. -/
def RuneSelf : Nat := 0x80

/-- Lowest continuation byte, `locb`. -/
def locb : Nat := 0x80

/-- Highest continuation byte, `hicb`. -/
def hicb : Nat := 0xBF

/-- The table `utf8.first`: information about the first byte of an encoding.
`0xF0` is `as` (ASCII), `0xF1` is `xx` (invalid); otherwise the low three bits
are the size and the high four bits index `acceptRanges`. -/
def first (b : Nat) : Nat :=
  if b < 0x80 then 0xF0
  else if b < 0xC2 then 0xF1
  else if b < 0xE0 then 0x02
  else if b = 0xE0 then 0x13
  else if b < 0xED then 0x03
  else if b = 0xED then 0x23
  else if b < 0xF0 then 0x03
  else if b = 0xF0 then 0x34
  else if b < 0xF4 then 0x04
  else if b = 0xF4 then 0x44
  else 0xF1

/-- The table `utf8.acceptRanges`: the range allowed for the second byte. -/
def acceptRanges (i : Nat) : Nat × Nat :=
  match i with
  | 0 => (locb, hicb)
  | 1 => (0xA0, hicb)
  | 2 => (locb, 0x9F)
  | 3 => (0x90, hicb)
  | 4 => (locb, 0x8F)
  | _ => (0, 0)

/-- The function `utf8.DecodeRuneInString`: the first rune of `s` and its width in
bytes.  An invalid or truncated encoding gives `(RuneError, 1)`, the empty
string gives `(RuneError, 0)`.  The `for ... range` loop over a string decodes
in the same way. -/
def DecodeRuneInString (s : GoString) : Nat × Nat :=
  match s with
  | [] => (RuneError, 0)
  | s0 :: t =>
    let x := first s0
    if x ≥ 0xF0 then
      if x = 0xF0 then (s0, 1) else (RuneError, 1)
    else
      let sz := x &&& 7
      let accept := acceptRanges (x >>> 4)
      if s.length < sz then (RuneError, 1)
      else
        match t with
        | [] => (RuneError, 1)
        | s1 :: t1 =>
          if s1 < accept.1 ∨ accept.2 < s1 then (RuneError, 1)
          else if sz ≤ 2 then (((s0 &&& 0x1F) <<< 6) ||| (s1 &&& 0x3F), 2)
          else
            match t1 with
            | [] => (RuneError, 1)
            | s2 :: t2 =>
              if s2 < locb ∨ hicb < s2 then (RuneError, 1)
              else if sz ≤ 3 then
                (((s0 &&& 0x0F) <<< 12) ||| ((s1 &&& 0x3F) <<< 6) ||| (s2 &&& 0x3F), 3)
              else
                match t2 with
                | [] => (RuneError, 1)
                | s3 :: _ =>
                  if s3 < locb ∨ hicb < s3 then (RuneError, 1)
                  else
                    (((s0 &&& 0x07) <<< 18) ||| ((s1 &&& 0x3F) <<< 12) |||
                      ((s2 &&& 0x3F) <<< 6) ||| (s3 &&& 0x3F), 4)

end utf8

/-- The loop `for i, r := range s` with `fuel` iterations left: the runes of
`s` in order, each with the bytes it was decoded from. -/
def rangeLoop : Nat → GoString → List (Nat × GoString)
  | 0, _ => []
  | fuel + 1, s =>
    match s with
    | [] => []
    | _ :: _ =>
      let d := utf8.DecodeRuneInString s
      (d.1, s.take d.2) :: rangeLoop fuel (s.drop d.2)

/-- The loop `for i, r := range s`, run over the whole string (every iteration
consumes at least one byte, so `len(s)` iterations are enough). -/
def rangeString (s : GoString) : List (Nat × GoString) :=
  rangeLoop s.length s

/-! ### `unicode` -/

namespace unicode

/-- The function `unicode.IsSpace`: the Latin-1 switch, and above Latin-1 the ranges of
the `White_Space` table. -/
def IsSpace (r : Nat) : Bool :=
  if r ≤ 0xFF then
    r = 0x09 ∨ r = 0x0A ∨ r = 0x0B ∨ r = 0x0C ∨ r = 0x0D ∨ r = 0x20 ∨ r = 0x85 ∨ r = 0xA0
  else
    r = 0x1680 ∨ (0x2000 ≤ r ∧ r ≤ 0x200A) ∨ (0x2028 ≤ r ∧ r ≤ 0x2029) ∨
      r = 0x202F ∨ r = 0x205F ∨ r = 0x3000

end unicode

/-! ### `strings` -/

namespace strings

/-- The table `asciiSpace` of package `strings`. -/
def asciiSpace (b : Nat) : Bool :=
  b = 0x09 ∨ b = 0x0A ∨ b = 0x0B ∨ b = 0x0C ∨ b = 0x0D ∨ b = 0x20

/-- The scanning loop of `strings.FieldsFunc` over the runes of the string.
`start` is the field being read (`none` when the source has `start < 0`);
a rune satisfying `f` closes it, any other rune extends or opens it. -/
def fieldsLoop (f : Nat → Bool) : List (Nat × GoString) → Option GoString → List GoString
  | [], none => []
  | [], some cur => [cur]
  | (r, bs) :: cs, start =>
    if f r then
      match start with
      | some cur => cur :: fieldsLoop f cs none
      | none => fieldsLoop f cs none
    else
      match start with
      | some cur => fieldsLoop f cs (some (cur ++ bs))
      | none => fieldsLoop f cs (some bs)

/-- The function `strings.FieldsFunc`: the maximal pieces of `s` between runes
satisfying `f`. -/
def FieldsFunc (s : GoString) (f : Nat → Bool) : List GoString :=
  fieldsLoop f (rangeString s) none

/-- The ASCII fast path of `strings.Fields`: the same scan, byte by byte,
with the table `asciiSpace`. -/
def fieldsASCII : GoString → Option GoString → List GoString
  | [], none => []
  | [], some cur => [cur]
  | b :: bs, start =>
    if asciiSpace b then
      match start with
      | some cur => cur :: fieldsASCII bs none
      | none => fieldsASCII bs none
    else
      match start with
      | some cur => fieldsASCII bs (some (cur ++ [b]))
      | none => fieldsASCII bs (some [b])

/-- The function `strings.Fields`: split around runs of white space.  When some byte
has its high bit set (`setBits >= utf8.RuneSelf`) it is
`FieldsFunc(s, unicode.IsSpace)`, otherwise the ASCII fast path runs. -/
def Fields (s : GoString) : List GoString :=
  if s.any (fun b => decide (utf8.RuneSelf ≤ b)) then FieldsFunc s unicode.IsSpace
  else fieldsASCII s none

/-- The function `strings.Join`: the elements with `sep` between neighbours. -/
def Join : List GoString → GoString → GoString
  | [], _ => []
  | [a], _ => a
  | a :: b :: rest, sep => a ++ sep ++ Join (b :: rest) sep

/-- The replacement loop of `strings.Replace` for a non-empty `old`, with no
limit on the count: scan from the left, `skip` bytes of the current match
still to pass over. -/
def replaceLoop (old new : GoString) : GoString → Nat → GoString
  | [], _ => []
  | _ :: rest, skip + 1 => replaceLoop old new rest skip
  | b :: rest, 0 =>
    if old.isPrefixOf (b :: rest) then new ++ replaceLoop old new rest (old.length - 1)
    else b :: replaceLoop old new rest 0

/-- The function `strings.ReplaceAll`: every non-overlapping instance of `old`, from the
left, replaced by `new`; an empty `old` matches before every rune and at the
end of the string. -/
def ReplaceAll (s old new : GoString) : GoString :=
  if old = new then s
  else if old = [] then new ++ (rangeString s).flatMap (fun c => c.2 ++ new)
  else replaceLoop old new s 0

end strings

/-! ### `fmt` -/

namespace fmt

/-- The digit loop of `fmt`'s integer formatting in base 10: the digits of `u`
are written from the right, in front of `acc`. -/
def fmtDigits : Nat → Nat → GoString → GoString
  | 0, _, acc => acc
  | fuel + 1, u, acc =>
    if u < 10 then (0x30 + u) :: acc
    else fmtDigits fuel (u / 10) ((0x30 + u % 10) :: acc)

/-- The verb `%d` of `fmt.Sprintf` for an `int64` with no flags: a minus sign for a
negative number, then the decimal digits of its magnitude. -/
def Sprintf_d (n : Int) : GoString :=
  if n < 0 then 0x2D :: fmtDigits (n.natAbs + 1) n.natAbs []
  else fmtDigits (n.natAbs + 1) n.natAbs []

end fmt

/-! ### `float64` -/

/-- A finite `float64`: the number `(-1)^neg * m * 2^e`; zero has `m = 0`. -/
structure Float64 where
  neg : Bool
  m : Nat
  e : Int
  deriving DecidableEq, Repr

namespace Float64

/-- The integer nearest to `n / d`, a tie going to the even one. -/
def roundHalfEven (n d : Nat) : Nat :=
  if 2 * (n % d) < d then n / d
  else if d < 2 * (n % d) then n / d + 1
  else if (n / d) % 2 = 0 then n / d
  else n / d + 1

/-- The fraction `(n / d) / 2^e`, as numerator and denominator. -/
def scale (n d : Nat) (e : Int) : Nat × Nat :=
  if e ≤ 0 then (n * 2 ^ (-e).toNat, d) else (n, d * 2 ^ e.toNat)

/-- The position of the highest set bit of `n`, found in at most `fuel` halvings. -/
def log2Loop : Nat → Nat → Nat
  | 0, _ => 0
  | fuel + 1, n => if n < 2 then 0 else log2Loop fuel (n / 2) + 1

/-- The position of the highest set bit of `n` (and 0 for `n = 0`), which is
`⌊log₂ n⌋` for a positive `n`. -/
def log2 (n : Nat) : Nat := log2Loop n n

/-- Rounding of the positive rational `n / d` to the nearest `float64`, ties to
even: the exponent `e` is the one for which `2^52 ≤ (n / d) / 2^e < 2^53`, and the
significand is `(n / d) / 2^e` rounded to an integer.  The result is `m * 2^e`.
(No overflow or underflow to a subnormal is modelled: the numbers rounded here
lie between `10^-6` and `2^63`.) -/
def nearest (n d : Nat) : Nat × Int :=
  let e0 : Int := (log2 n : Int) - (log2 d : Int) - 52
  let s0 := scale n d e0
  let e : Int := if 2 ^ 52 * s0.2 ≤ s0.1 then e0 else e0 - 1
  let s := scale n d e
  (roundHalfEven s.1 s.2, e)

/-- The conversion `float64(n)` of an `int64`. -/
def ofInt64 (n : Int) : Float64 :=
  if n = 0 then ⟨false, 0, 0⟩
  else ⟨decide (n < 0), (nearest n.natAbs 1).1, (nearest n.natAbs 1).2⟩

/-- The quotient `x / c` for a constant `c` that is a positive integer with an
exact `float64` representation, such as `1e6`. -/
def divConst (x : Float64) (c : Nat) : Float64 :=
  if x.m = 0 then x
  else
    let s := scale x.m c (-x.e)
    ⟨x.neg, (nearest s.1 s.2).1, (nearest s.1 s.2).2⟩

/-- The magnitude of `x` in thousandths, rounded to an integer, ties to even:
what the verb `%.3f` prints without the decimal point. -/
def thousandths (x : Float64) : Nat :=
  roundHalfEven (scale (x.m * 1000) 1 (-x.e)).1 (scale (x.m * 1000) 1 (-x.e)).2

end Float64

namespace fmt

/-- The verb `%.3f` of `fmt.Sprintf` for a finite `float64`: a minus sign when
the sign bit is set, the integer part, a point and three decimals. -/
def Sprintf_3f (x : Float64) : GoString :=
  (if x.neg then [0x2D] else []) ++
    fmtDigits (x.thousandths / 1000 + 1) (x.thousandths / 1000) [] ++
    [0x2E, 0x30 + x.thousandths / 100 % 10, 0x30 + x.thousandths / 10 % 10,
      0x30 + x.thousandths % 10]

end fmt

/-! ## `gorm.io/gorm/logger` and `log/slog` -/

namespace logger

/-- The type `logger.LogLevel` of gorm, declared `type LogLevel int`. -/
abbrev LogLevel := Int

/-- The constant `logger.Silent`, declared `iota + 1`. -/
def Silent : LogLevel := 1

/-- The constant `logger.Error`. -/
def Error : LogLevel := 2

/-- The constant `logger.Warn`. -/
def Warn : LogLevel := 3

/-- The constant `logger.Info`. -/
def Info : LogLevel := 4

end logger

/-- A `context.Context` value; the adapter only passes it on. -/
abbrev Context := Nat

/-- A `time.Time` value, as nanoseconds on some clock. -/
abbrev Time := Int

/-- A `time.Duration` value: nanoseconds, an `int64`. -/
abbrev Duration := Int

namespace slog

/-- Which package-level function of `log/slog` was called:
`ErrorContext`, `WarnContext` or `InfoContext`. -/
inductive Severity where
  | Error
  | Warn
  | Info
  deriving DecidableEq, Repr

/-- One call of `slog.ErrorContext` / `slog.WarnContext` / `slog.InfoContext`: the
context, the message and the attributes passed after it.  An attribute made by
`slog.String(key, value)` is the pair `(key, value)`. -/
structure Record where
  ctx : Context
  severity : Severity
  msg : GoString
  attrs : List (GoString × GoString)
  deriving DecidableEq, Repr

end slog

/-! ## `slog.go` -/

/-- The struct `Slog`. -/
structure Slog where
  LogLevel : logger.LogLevel
  SlowThreshold : Duration
  deriving DecidableEq, Repr

/-- A pointer to a `Slog`. -/
abbrev Ptr := Nat

/-- The `Slog` values in memory: what each pointer points to, `none` for a
pointer (such as `nil`) that points to no `Slog`. -/
abbrev Heap := Ptr → Option Slog

/-- The method `(*Slog).LogMode`: stores `level` in the receiver and returns the
receiver.  The result is the returned pointer and the memory after the call;
`none` is the panic of writing through a pointer that points to nothing. -/
def Slog.LogMode (log : Ptr) (level : logger.LogLevel) (h : Heap) : Option (Ptr × Heap) :=
  match h log with
  | none => none
  | some v => some (log, Function.update h log (some { v with LogLevel := level }))

/-- The method `(*Slog).Info`; `log` is what the receiver points to, `Sprintf` is
`fmt.Sprintf`.  The result is the list of lines emitted. -/
def Slog.Info {α : Type} (Sprintf : GoString → List α → GoString) (log : Slog) (ctx : Context)
    (msg : GoString) (data : List α) : List slog.Record :=
  if log.LogLevel ≥ logger.Info then
    [{ ctx := ctx, severity := slog.Severity.Info, msg := Sprintf msg data, attrs := [] }]
  else []

/-- The method `(*Slog).Warn`. -/
def Slog.Warn {α : Type} (Sprintf : GoString → List α → GoString) (log : Slog) (ctx : Context)
    (msg : GoString) (data : List α) : List slog.Record :=
  if log.LogLevel ≥ logger.Warn then
    [{ ctx := ctx, severity := slog.Severity.Warn, msg := Sprintf msg data, attrs := [] }]
  else []

/-- The method `(*Slog).Error`. -/
def Slog.Error {α : Type} (Sprintf : GoString → List α → GoString) (log : Slog) (ctx : Context)
    (msg : GoString) (data : List α) : List slog.Record :=
  if log.LogLevel ≥ logger.Error then
    [{ ctx := ctx, severity := slog.Severity.Error, msg := Sprintf msg data, attrs := [] }]
  else []

/-- The function `formatSQL` of `slog.go`: newlines to spaces, then the fields joined by
single spaces. -/
def formatSQL (sql : GoString) : GoString :=
  let sql := strings.ReplaceAll sql (lit "\n") (lit " ")
  let sql := strings.Join (strings.Fields sql) (lit " ")
  sql

/-- The closure `logMessage` inside `Trace`: a switch on the level, one call of
the matching `slog` function, nothing for any other level. -/
def logMessage (ctx : Context) (level : logger.LogLevel) (msg : GoString)
    (keyVals : List (GoString × GoString)) : List slog.Record :=
  if level = logger.Error then
    [{ ctx := ctx, severity := slog.Severity.Error, msg := msg, attrs := keyVals }]
  else if level = logger.Warn then
    [{ ctx := ctx, severity := slog.Severity.Warn, msg := msg, attrs := keyVals }]
  else if level = logger.Info then
    [{ ctx := ctx, severity := slog.Severity.Info, msg := msg, attrs := keyVals }]
  else []

/-- The string `rowsStr` of `Trace`. -/
def rowsStr (rows : Int) : GoString :=
  if rows = -1 then lit "-" else fmt.Sprintf_d rows

/-- The string `message` of `Trace`, `fmt.Sprintf("[%.3fms] [rows:%s] %s", ...)`.
`ms` is the text the verb `%.3f` produces for `elapsedMs`. -/
def traceMessage (ms : GoString) (rows : Int) (sql : GoString) : GoString :=
  lit "[" ++ ms ++ lit "ms] [rows:" ++ rowsStr rows ++ lit "] " ++ formatSQL sql

/-- The text of `%.3f` applied to `elapsedMs`, which `Trace` computes as
`float64(elapsed.Nanoseconds()) / 1e6`. -/
def elapsedMsText (elapsed : Duration) : GoString :=
  fmt.Sprintf_3f ((Float64.ofInt64 elapsed).divConst 1000000)

/-- The memory a call of `Trace` works on: the `Slog` its receiver points to,
and whatever else the callback can reach.  The callback is given all of it, so
it may reconfigure the logger: `log.LogMode(l)` is the update
`{ w.log with LogLevel := l }`, an assignment to `log.SlowThreshold` the update
of the other field. -/
structure World (σ : Type) where
  log : Slog
  user : σ

/-- What a call of `Trace` did: the memory after it, how many times it called
`fc`, and the lines it emitted. -/
structure TraceResult (σ : Type) where
  state : World σ
  fcCalls : Nat
  records : List slog.Record

/-- The method `(*Slog).Trace`; `w.log` is what the receiver points to when the
call starts.

* `since` is `time.Since` at the moment of the call;
* `fmtMs d` is the text of `%.3f` applied to `float64(d.Nanoseconds()) / 1e6`;
  the program's is `elapsedMsText`, and what does not depend on that text is
  stated for every `fmtMs`;
* `fc` is the callback, which may read and change the memory, the logger
  included;
* `err` is `none` for a nil error and `some text` for an error whose `Error()`
  is `text`.

The guard reads `log.LogLevel` before the callback runs.  The `switch` reads
`log.LogLevel` and `log.SlowThreshold` after it, in the memory the callback
left: that is `(fc w).2.log`.  The first case of the `switch`,
`err != nil && log.LogLevel >= logger.Error`, is the first arm of the `match`;
the other two cases follow in order. -/
def Slog.Trace {σ : Type} (since : Time → Duration) (fmtMs : Duration → GoString)
    (ctx : Context) (begin : Time) (fc : World σ → (GoString × Int) × World σ)
    (err : Option GoString) (w : World σ) : TraceResult σ :=
  if w.log.LogLevel ≤ logger.Silent then
    { state := w, fcCalls := 0, records := [] }
  else
    let elapsed := since begin
    let r := fc w
    let message := traceMessage (fmtMs elapsed) r.1.2 r.1.1
    let records :=
      match err, decide (r.2.log.LogLevel ≥ logger.Error) with
      | some text, true =>
        logMessage ctx logger.Error message [(lit "error", text)]
      | _, _ =>
        if elapsed > r.2.log.SlowThreshold ∧ r.2.log.SlowThreshold ≠ 0 ∧
            r.2.log.LogLevel ≥ logger.Warn then
          logMessage ctx logger.Warn message []
        else if r.2.log.LogLevel = logger.Info then
          logMessage ctx logger.Info message []
        else []
    { state := r.2, fcCalls := 1, records := records }

/-! ## Auxiliary definitions used in the statements and proofs -/

/-- The level a free-text method or a trace case requires for a severity. -/
def levelOf : slog.Severity → logger.LogLevel
  | slog.Severity.Error => logger.Error
  | slog.Severity.Warn => logger.Warn
  | slog.Severity.Info => logger.Info

/-- The free-text method that emits at a given severity. -/
def freeText {α : Type} (Sprintf : GoString → List α → GoString) (m : slog.Severity)
    (log : Slog) (ctx : Context) (msg : GoString) (data : List α) : List slog.Record :=
  match m with
  | slog.Severity.Error => Slog.Error Sprintf log ctx msg data
  | slog.Severity.Warn => Slog.Warn Sprintf log ctx msg data
  | slog.Severity.Info => Slog.Info Sprintf log ctx msg data

namespace utf8

/-- The lowest second byte allowed after the first byte `b`. -/
def lo2 (b : Nat) : Nat := if b = 0xE0 then 0xA0 else if b = 0xF0 then 0x90 else 0x80

/-- The highest second byte allowed after the first byte `b`. -/
def hi2 (b : Nat) : Nat := if b = 0xED then 0x9F else if b = 0xF4 then 0x8F else 0xBF

/-- A string is safe to append when it is empty or starts with a byte that is
not a continuation byte. -/
def Safe (q : GoString) : Prop :=
  ∀ b, q.head? = some b → b < 0x80 ∨ 0xBF < b

end utf8

/-- The runes of a string, as the `range` loop yields them. -/
def runes (s : GoString) : List Nat := (rangeString s).map Prod.fst

/-- Two neighbours are not both the space U+0020. -/
def NoDoubleSpace (a b : Nat) : Prop := ¬ (a = 0x20 ∧ b = 0x20)

namespace strings

/-- A field: a non-empty string none of whose runes is white space. -/
def GoodField (f : GoString) : Prop :=
  f ≠ [] ∧ ∀ c ∈ rangeString f, unicode.IsSpace c.1 = false

/-- The byte-wise effect of `strings.ReplaceAll(s, "\n", " ")`. -/
def nl (b : Nat) : Nat := if b = 0x0A then 0x20 else b

end strings

/-- The number a string of decimal digits denotes. -/
def digitsValue (ds : GoString) : Nat :=
  ds.foldl (fun acc b => 10 * acc + (b - 0x30)) 0

/-- The string `d` is the decimal rendering of `n`: a minus sign exactly when `n` is
negative, then the digits of its magnitude, with no leading zero. -/
def IsDecimal (d : GoString) (n : Int) : Prop :=
  ∃ ds : GoString, ds ≠ [] ∧ (∀ b ∈ ds, 0x30 ≤ b ∧ b ≤ 0x39) ∧
    (ds.head? = some 0x30 → ds = [0x30]) ∧ digitsValue ds = n.natAbs ∧
    d = if n < 0 then 0x2D :: ds else ds

/-- The bytes of a run of runes. -/
def bytesOf (g : List (Nat × GoString)) : GoString := (g.map Prod.snd).flatten

/-- The maximal non-whitespace words of a string: its runes are cut at every
white space rune, and the non-empty pieces are the words. -/
def words (s : GoString) : List GoString :=
  (((rangeString s).splitOnP (fun c => unicode.IsSpace c.1)).filter (fun g => !g.isEmpty)).map
    bytesOf

/-- The function `formatSQL` with the `strings.ReplaceAll` step removed. -/
def formatSQLNoReplace (sql : GoString) : GoString :=
  strings.Join (strings.Fields sql) (lit " ")

instance (f : GoString) : Decidable (strings.GoodField f) := by
  unfold strings.GoodField
  infer_instance

/-! ## UTF-8 decoding -/

namespace utf8

theorem first_ascii {b : Nat} (h : b < 0x80) : first b = 0xF0 := by
  unfold first; rw [if_pos h]

theorem first_invalid {b : Nat} (h : 0x80 ≤ b ∧ b < 0xC2 ∨ 0xF4 < b) : first b = 0xF1 := by
  unfold first
  rw [if_neg (by omega)]
  by_cases h1 : b < 0xC2
  · rw [if_pos h1]
  · rw [if_neg h1, if_neg (by omega), if_neg (by omega), if_neg (by omega), if_neg (by omega),
      if_neg (by omega), if_neg (by omega), if_neg (by omega), if_neg (by omega)]

theorem first_two {b : Nat} (h : 0xC2 ≤ b ∧ b < 0xE0) : first b = 0x02 := by
  unfold first
  rw [if_neg (by omega), if_neg (by omega), if_pos h.2]

theorem first_three {b : Nat} (h : 0xE0 < b ∧ b < 0xF0 ∧ b ≠ 0xED) : first b = 0x03 := by
  unfold first
  rw [if_neg (by omega), if_neg (by omega), if_neg (by omega), if_neg (by omega)]
  by_cases h1 : b < 0xED
  · rw [if_pos h1]
  · rw [if_neg h1, if_neg h.2.2, if_pos h.2.1]

theorem first_four {b : Nat} (h : 0xF0 < b ∧ b < 0xF4) : first b = 0x04 := by
  unfold first
  rw [if_neg (by omega), if_neg (by omega), if_neg (by omega), if_neg (by omega),
    if_neg (by omega), if_neg (by omega), if_neg (by omega), if_neg (by omega), if_pos h.2]

theorem decode_ascii (b : Nat) (t : GoString) (h : b < 0x80) :
    DecodeRuneInString (b :: t) = (b, 1) := by
  simp only [DecodeRuneInString, first_ascii h]
  rfl

theorem decode_invalid (b : Nat) (t : GoString) (h : 0x80 ≤ b ∧ b < 0xC2 ∨ 0xF4 < b) :
    DecodeRuneInString (b :: t) = (RuneError, 1) := by
  simp only [DecodeRuneInString, first_invalid h]
  rfl

/-- The table entries for a first byte that starts a multi-byte encoding: the
size and the range of the second byte. -/
theorem first_multi {b : Nat} (h : 0xC2 ≤ b ∧ b ≤ 0xF4) :
    first b < 0xF0 ∧ acceptRanges (first b >>> 4) = (lo2 b, hi2 b) ∧
      first b &&& 7 = if b < 0xE0 then 2 else if b < 0xF0 then 3 else 4 := by
  by_cases h1 : b < 0xE0
  · rw [first_two ⟨h.1, h1⟩, if_pos h1]
    have e1 : lo2 b = 0x80 := by unfold lo2; split_ifs <;> omega
    have e2 : hi2 b = 0xBF := by unfold hi2; split_ifs <;> omega
    rw [e1, e2]; decide
  · rw [if_neg h1]
    by_cases h2 : b = 0xE0
    · subst h2; decide
    · by_cases h3 : b = 0xED
      · subst h3; decide
      · by_cases h4 : b < 0xF0
        · rw [first_three ⟨by omega, h4, h3⟩, if_pos h4]
          have e1 : lo2 b = 0x80 := by unfold lo2; split_ifs <;> omega
          have e2 : hi2 b = 0xBF := by unfold hi2; split_ifs <;> omega
          rw [e1, e2]; decide
        · rw [if_neg h4]
          by_cases h5 : b = 0xF0
          · subst h5; decide
          · by_cases h6 : b = 0xF4
            · subst h6; decide
            · rw [first_four (by omega)]
              have e1 : lo2 b = 0x80 := by
                unfold lo2; rw [if_neg (by omega), if_neg (by omega)]
              have e2 : hi2 b = 0xBF := by
                unfold hi2; rw [if_neg (by omega), if_neg (by omega)]
              rw [e1, e2]; decide

theorem decode_two (b : Nat) (t : GoString) (h : 0xC2 ≤ b ∧ b < 0xE0) :
    DecodeRuneInString (b :: t) =
      match t with
      | [] => (RuneError, 1)
      | s1 :: _ =>
        if s1 < 0x80 ∨ 0xBF < s1 then (RuneError, 1)
        else (((b &&& 0x1F) <<< 6) ||| (s1 &&& 0x3F), 2) := by
  obtain ⟨h1, h2, h3⟩ := first_multi (show 0xC2 ≤ b ∧ b ≤ 0xF4 by omega)
  rw [if_pos h.2] at h3
  have e1 : lo2 b = 0x80 := by unfold lo2; split_ifs <;> omega
  have e2 : hi2 b = 0xBF := by unfold hi2; split_ifs <;> omega
  rw [e1, e2] at h2
  simp only [DecodeRuneInString, h2, h3, if_neg (not_le.mpr h1)]
  rcases t with _ | ⟨s1, t1⟩
  · rfl
  · simp only [List.length_cons, le_refl, if_true]
    rw [if_neg (by omega)]

theorem decode_three (b : Nat) (t : GoString) (h : 0xE0 ≤ b ∧ b < 0xF0) :
    DecodeRuneInString (b :: t) =
      match t with
      | s1 :: s2 :: _ =>
        if s1 < lo2 b ∨ hi2 b < s1 then (RuneError, 1)
        else if s2 < 0x80 ∨ 0xBF < s2 then (RuneError, 1)
        else (((b &&& 0x0F) <<< 12) ||| ((s1 &&& 0x3F) <<< 6) ||| (s2 &&& 0x3F), 3)
      | _ => (RuneError, 1) := by
  obtain ⟨h1, h2, h3⟩ := first_multi (show 0xC2 ≤ b ∧ b ≤ 0xF4 by omega)
  rw [if_neg (by omega), if_pos h.2] at h3
  simp only [DecodeRuneInString, h2, h3, if_neg (not_le.mpr h1)]
  rcases t with _ | ⟨s1, _ | ⟨s2, t2⟩⟩
  · rfl
  · simp only [List.length_cons, List.length_nil]
    rw [if_pos (by omega)]
  · simp only [List.length_cons, locb, hicb]
    rw [if_neg (by omega), if_neg (by omega : ¬ 3 ≤ 2)]
    simp only [le_refl, if_true]

theorem decode_four (b : Nat) (t : GoString) (h : 0xF0 ≤ b ∧ b ≤ 0xF4) :
    DecodeRuneInString (b :: t) =
      match t with
      | s1 :: s2 :: s3 :: _ =>
        if s1 < lo2 b ∨ hi2 b < s1 then (RuneError, 1)
        else if s2 < 0x80 ∨ 0xBF < s2 then (RuneError, 1)
        else if s3 < 0x80 ∨ 0xBF < s3 then (RuneError, 1)
        else (((b &&& 0x07) <<< 18) ||| ((s1 &&& 0x3F) <<< 12) |||
                      ((s2 &&& 0x3F) <<< 6) ||| (s3 &&& 0x3F), 4)
      | _ => (RuneError, 1) := by
  obtain ⟨h1, h2, h3⟩ := first_multi (show 0xC2 ≤ b ∧ b ≤ 0xF4 by omega)
  rw [if_neg (by omega), if_neg (by omega)] at h3
  simp only [DecodeRuneInString, h2, h3, if_neg (not_le.mpr h1)]
  rcases t with _ | ⟨s1, _ | ⟨s2, _ | ⟨s3, t3⟩⟩⟩
  · rfl
  · simp only [List.length_cons, List.length_nil]
    rw [if_pos (by omega)]
  · simp only [List.length_cons, List.length_nil]
    rw [if_pos (by omega)]
  · simp only [List.length_cons, locb, hicb]
    rw [if_neg (by omega), if_neg (by omega : ¬ 4 ≤ 2), if_neg (by omega : ¬ 4 ≤ 3)]


theorem lo2_ge (b : Nat) : 0x80 ≤ lo2 b := by
  unfold lo2; split_ifs <;> omega

theorem hi2_le (b : Nat) : hi2 b ≤ 0xBF := by
  unfold hi2; split_ifs <;> omega

/-- The five kinds of first byte. -/
theorem lead_cases (b : Nat) :
    b < 0x80 ∨ (0x80 ≤ b ∧ b < 0xC2 ∨ 0xF4 < b) ∨ (0xC2 ≤ b ∧ b < 0xE0) ∨
      (0xE0 ≤ b ∧ b < 0xF0) ∨ (0xF0 ≤ b ∧ b ≤ 0xF4) := by
  omega

/-- Decoding a non-empty string consumes at least one byte and no more than
the string has. -/
theorem decode_size (b : Nat) (t : GoString) :
    1 ≤ (DecodeRuneInString (b :: t)).2 ∧
      (DecodeRuneInString (b :: t)).2 ≤ (b :: t).length := by
  rcases lead_cases b with h | h | h | h | h
  · rw [decode_ascii b t h]; simp
  · rw [decode_invalid b t h]; simp
  · rw [decode_two b t h]
    rcases t with _ | ⟨s1, t1⟩
    · simp
    · dsimp only; split_ifs <;> simp
  · rw [decode_three b t h]
    rcases t with _ | ⟨s1, _ | ⟨s2, t2⟩⟩
    · simp
    · simp
    · dsimp only; split_ifs <;> simp
  · rw [decode_four b t h]
    rcases t with _ | ⟨s1, _ | ⟨s2, _ | ⟨s3, t3⟩⟩⟩
    · simp
    · simp
    · simp
    · dsimp only; split_ifs <;> simp

theorem safe_nil : Safe [] := by
  intro b h; simp at h

theorem safe_cons {b : Nat} (t : GoString) (h : b < 0x80 ∨ 0xBF < b) : Safe (b :: t) := by
  intro c hc
  simp only [List.head?_cons, Option.some.injEq] at hc
  subst hc; exact h

/-- The first rune of a string does not change when a safe string is appended:
a truncated encoding stays invalid. -/
theorem decode_append_safe (b : Nat) (t q : GoString) (hq : Safe q) :
    DecodeRuneInString (b :: t ++ q) = DecodeRuneInString (b :: t) := by
  have hq1 : ∀ x q1, q = x :: q1 → x < 0x80 ∨ 0xBF < x := by
    intro x q1 e; exact hq x (by rw [e]; rfl)
  have hlo := lo2_ge b
  have hhi := hi2_le b
  rw [List.cons_append]
  rcases lead_cases b with h | h | h | h | h
  · rw [decode_ascii b _ h, decode_ascii b _ h]
  · rw [decode_invalid b _ h, decode_invalid b _ h]
  · rw [decode_two b _ h, decode_two b _ h]
    rcases t with _ | ⟨s1, t1⟩
    · rcases q with _ | ⟨x, q1⟩
      · rfl
      · have := hq1 x q1 rfl
        simp only [List.nil_append]
        rw [if_pos this]
    · rfl
  · rw [decode_three b _ h, decode_three b _ h]
    rcases t with _ | ⟨s1, _ | ⟨s2, t2⟩⟩
    · rcases q with _ | ⟨x, _ | ⟨y, q2⟩⟩
      · rfl
      · rfl
      · have := hq1 x _ rfl
        simp only [List.nil_append]
        rw [if_pos (by omega)]
    · rcases q with _ | ⟨x, q1⟩
      · rfl
      · have := hq1 x _ rfl
        simp only [List.cons_append, List.nil_append]
        split_ifs <;> rfl
    · rfl
  · rw [decode_four b _ h, decode_four b _ h]
    rcases t with _ | ⟨s1, _ | ⟨s2, _ | ⟨s3, t3⟩⟩⟩
    · rcases q with _ | ⟨x, _ | ⟨y, _ | ⟨z, q3⟩⟩⟩
      · rfl
      · rfl
      · rfl
      · have := hq1 x _ rfl
        simp only [List.nil_append]
        rw [if_pos (by omega)]
    · rcases q with _ | ⟨x, _ | ⟨y, q2⟩⟩
      · rfl
      · rfl
      · have := hq1 x _ rfl
        simp only [List.cons_append, List.nil_append]
        split_ifs <;> rfl
    · rcases q with _ | ⟨x, q1⟩
      · rfl
      · have := hq1 x _ rfl
        simp only [List.cons_append, List.nil_append]
        split_ifs <;> rfl
    · rfl


/-- A rune that is white space is never decoded from a string that starts
with a continuation byte. -/
theorem safe_of_isSpace (b : Nat) (t : GoString)
    (h : unicode.IsSpace (DecodeRuneInString (b :: t)).1 = true) : Safe (b :: t) := by
  apply safe_cons
  by_contra hc
  rw [decode_invalid b t (by omega)] at h
  revert h
  decide

end utf8

/-! ### The `range` loop -/

theorem rangeLoop_fuel (fuel1 : Nat) : ∀ (fuel2 : Nat) (s : GoString),
    s.length ≤ fuel1 → s.length ≤ fuel2 → rangeLoop fuel1 s = rangeLoop fuel2 s := by
  induction fuel1 with
  | zero =>
    intro fuel2 s h1 _
    have hs : s = [] := List.length_eq_zero.mp (Nat.le_zero.mp h1)
    subst hs
    cases fuel2 <;> rfl
  | succ n ih =>
    intro fuel2 s h1 h2
    rcases s with _ | ⟨b, t⟩
    · cases fuel2 <;> rfl
    · rcases fuel2 with _ | m
      · simp at h2
      · have hsz := utf8.decode_size b t
        simp only [rangeLoop]
        congr 1
        apply ih
        · simp only [List.length_drop, List.length_cons] at *; omega
        · simp only [List.length_drop, List.length_cons] at *; omega

theorem rangeString_nil : rangeString [] = [] := rfl

/-- One iteration of the `range` loop. -/
theorem rangeString_cons (b : Nat) (t : GoString) :
    rangeString (b :: t) =
      ((utf8.DecodeRuneInString (b :: t)).1, (b :: t).take (utf8.DecodeRuneInString (b :: t)).2) ::
        rangeString ((b :: t).drop (utf8.DecodeRuneInString (b :: t)).2) := by
  have hsz := utf8.decode_size b t
  unfold rangeString
  simp only [List.length_cons, rangeLoop]
  congr 1
  apply rangeLoop_fuel
  · simp only [List.length_drop, List.length_cons] at *; omega
  · exact le_refl _

theorem rangeString_ne_nil (b : Nat) (t : GoString) : rangeString (b :: t) ≠ [] := by
  rw [rangeString_cons]; exact List.cons_ne_nil _ _

theorem rangeString_eq_nil {s : GoString} (h : rangeString s = []) : s = [] := by
  rcases s with _ | ⟨b, t⟩
  · rfl
  · exact absurd h (rangeString_ne_nil b t)

/-- An ASCII byte is a rune of its own. -/
theorem rangeString_ascii (b : Nat) (t : GoString) (h : b < 0x80) :
    rangeString (b :: t) = (b, [b]) :: rangeString t := by
  rw [rangeString_cons, utf8.decode_ascii b t h]
  rfl

/-- The runes of `p ++ q` are the runes of `p` followed by the runes of `q`
when `q` is safe to append. -/
theorem rangeString_append_safe (q : GoString) (hq : utf8.Safe q) :
    ∀ (n : Nat) (p : GoString), p.length = n →
      rangeString (p ++ q) = rangeString p ++ rangeString q := by
  intro n
  induction n using Nat.strong_induction_on with
  | _ n ih =>
    intro p hp
    rcases p with _ | ⟨b, t⟩
    · rfl
    · have hsz := utf8.decode_size b t
      have hd := utf8.decode_append_safe b t q hq
      rw [List.cons_append] at hd ⊢
      rw [rangeString_cons b (t ++ q), rangeString_cons b t, hd]
      have hle : (utf8.DecodeRuneInString (b :: t)).2 ≤ (b :: t).length := hsz.2
      rw [← List.cons_append, List.take_append_of_le_length hle,
        List.drop_append_of_le_length hle]
      rw [ih ((b :: t).drop (utf8.DecodeRuneInString (b :: t)).2).length
        (by simp only [List.length_drop, List.length_cons] at *; omega) _ rfl]
      rfl


/-- The bytes the `range` loop walks over are the bytes of the string. -/
theorem rangeString_bytes : ∀ (n : Nat) (s : GoString), s.length = n →
    ((rangeString s).map Prod.snd).flatten = s := by
  intro n
  induction n using Nat.strong_induction_on with
  | _ n ih =>
    intro s hs
    rcases s with _ | ⟨b, t⟩
    · rfl
    · have hsz := utf8.decode_size b t
      rw [rangeString_cons, List.map_cons, List.flatten_cons,
        ih ((b :: t).drop (utf8.DecodeRuneInString (b :: t)).2).length
          (by simp only [List.length_drop, List.length_cons] at *; omega) _ rfl]
      exact List.take_append_drop _ _

/-! ### `strings.Fields` -/

namespace strings

theorem isSpace_ascii (b : Nat) (h : b < 0x80) : unicode.IsSpace b = asciiSpace b := by
  unfold unicode.IsSpace asciiSpace
  rw [if_pos (by omega)]
  apply decide_eq_decide.mpr
  omega

theorem isSpace_space : unicode.IsSpace 0x20 = true := by decide

/-- On a string of ASCII bytes the fast path computes what the rune loop
computes. -/
theorem fieldsASCII_eq (s : GoString) : ∀ (start : Option GoString),
    (∀ b ∈ s, b < 0x80) →
      fieldsASCII s start = fieldsLoop unicode.IsSpace (rangeString s) start := by
  induction s with
  | nil =>
    intro start _
    cases start <;> rfl
  | cons b t ih =>
    intro start h
    have hb : b < 0x80 := h b (List.mem_cons_self _ _)
    have ht : ∀ c ∈ t, c < 0x80 := fun c hc => h c (List.mem_cons_of_mem _ hc)
    rw [rangeString_ascii b t hb]
    simp only [fieldsASCII, fieldsLoop, isSpace_ascii b hb]
    cases start <;> split_ifs <;> simp only [ih _ ht]

/-- The two paths of `strings.Fields` agree: it is `FieldsFunc(s, unicode.IsSpace)`. -/
theorem Fields_eq (s : GoString) : Fields s = FieldsFunc s unicode.IsSpace := by
  unfold Fields
  split_ifs with h
  · rfl
  · unfold FieldsFunc
    apply fieldsASCII_eq
    intro b hb
    by_contra hc
    apply h
    rw [List.any_eq_true]
    exact ⟨b, hb, decide_eq_true (by unfold utf8.RuneSelf; omega)⟩

/-- Every string the scanning loop returns is a field. -/
theorem fieldsLoop_good : ∀ (n : Nat) (s : GoString), s.length = n →
    (∀ f ∈ fieldsLoop unicode.IsSpace (rangeString s) none, GoodField f) ∧
    (∀ (cur : GoString) (X : List (Nat × GoString)), X ≠ [] →
      (∀ c ∈ X, unicode.IsSpace c.1 = false) →
      rangeString (cur ++ s) = X ++ rangeString s →
      ∀ f ∈ fieldsLoop unicode.IsSpace (rangeString s) (some cur), GoodField f) := by
  intro n
  induction n using Nat.strong_induction_on with
  | _ n ih =>
    intro s hs
    rcases s with _ | ⟨b, t⟩
    · refine ⟨fun f hf => by simp [rangeString_nil, fieldsLoop] at hf, ?_⟩
      intro cur X hX hXs hr f hf
      simp only [rangeString_nil, fieldsLoop, List.mem_singleton] at hf
      subst hf
      rw [List.append_nil, rangeString_nil, List.append_nil] at hr
      refine ⟨?_, by rw [hr]; exact hXs⟩
      rintro rfl
      exact hX hr.symm
    · have hsz := utf8.decode_size b t
      have hlt : ((b :: t).drop (utf8.DecodeRuneInString (b :: t)).2).length < n := by
        simp only [List.length_drop, List.length_cons] at *; omega
      obtain ⟨ih1, ih2⟩ := ih _ hlt _ rfl
      rw [rangeString_cons]
      by_cases hsp : unicode.IsSpace (utf8.DecodeRuneInString (b :: t)).1 = true
      · constructor
        · intro f hf
          simp only [fieldsLoop, hsp, if_true] at hf
          exact ih1 f hf
        · intro cur X hX hXs hr f hf
          simp only [fieldsLoop, hsp, if_true, List.mem_cons] at hf
          rcases hf with hf | hf
          · subst hf
            have hsafe := utf8.safe_of_isSpace b t hsp
            rw [← rangeString_cons b t, rangeString_append_safe _ hsafe _ _ rfl] at hr
            have hr1 := List.append_cancel_right hr
            refine ⟨?_, by rw [hr1]; exact hXs⟩
            rintro rfl
            exact hX hr1.symm
          · exact ih1 f hf
      · have hsp1 : unicode.IsSpace (utf8.DecodeRuneInString (b :: t)).1 = false := by
          simpa using hsp
        constructor
        · intro f hf
          simp only [fieldsLoop, hsp1, Bool.false_eq_true, if_false] at hf
          refine ih2 _ [((utf8.DecodeRuneInString (b :: t)).1,
            (b :: t).take (utf8.DecodeRuneInString (b :: t)).2)] (List.cons_ne_nil _ _) ?_ ?_ f hf
          · intro c hc
            rw [List.mem_singleton] at hc
            rw [hc]; exact hsp1
          · rw [List.take_append_drop, rangeString_cons]
            rfl
        · intro cur X hX hXs hr f hf
          simp only [fieldsLoop, hsp1, Bool.false_eq_true, if_false] at hf
          refine ih2 _ (X ++ [((utf8.DecodeRuneInString (b :: t)).1,
            (b :: t).take (utf8.DecodeRuneInString (b :: t)).2)]) (by simp) ?_ ?_ f hf
          · intro c hc
            rw [List.mem_append, List.mem_singleton] at hc
            rcases hc with hc | hc
            · exact hXs c hc
            · rw [hc]; exact hsp1
          · rw [List.append_assoc, List.take_append_drop, hr]
            simp

/-- Every string `strings.Fields` returns is a field. -/
theorem Fields_good (s : GoString) : ∀ f ∈ Fields s, GoodField f := by
  rw [Fields_eq]
  exact (fieldsLoop_good s.length s rfl).1


/-- Runes that are not separators extend the field being read. -/
theorem fieldsLoop_append_some (f : Nat → Bool) (X Y : List (Nat × GoString))
    (hX : ∀ c ∈ X, f c.1 = false) : ∀ (cur : GoString),
    fieldsLoop f (X ++ Y) (some cur) = fieldsLoop f Y (some (cur ++ (X.map Prod.snd).flatten)) := by
  induction X with
  | nil => intro cur; simp
  | cons c X ih =>
    intro cur
    obtain ⟨r, bs⟩ := c
    have hc : f r = false := hX (r, bs) (List.mem_cons_self _ _)
    have hX1 : ∀ c ∈ X, f c.1 = false := fun c h => hX c (List.mem_cons_of_mem _ h)
    rw [List.cons_append]
    simp only [fieldsLoop, hc, Bool.false_eq_true, if_false]
    rw [ih hX1, List.map_cons, List.flatten_cons, List.append_assoc]

/-- Runes that are not separators open a field when none is being read. -/
theorem fieldsLoop_append_none (f : Nat → Bool) (X Y : List (Nat × GoString))
    (hX : ∀ c ∈ X, f c.1 = false) (hne : X ≠ []) :
    fieldsLoop f (X ++ Y) none = fieldsLoop f Y (some ((X.map Prod.snd).flatten)) := by
  rcases X with _ | ⟨c, X⟩
  · exact absurd rfl hne
  · obtain ⟨r, bs⟩ := c
    have hc : f r = false := hX (r, bs) (List.mem_cons_self _ _)
    have hX1 : ∀ c ∈ X, f c.1 = false := fun c h => hX c (List.mem_cons_of_mem _ h)
    rw [List.cons_append]
    simp only [fieldsLoop, hc, Bool.false_eq_true, if_false]
    rw [fieldsLoop_append_some f X Y hX1, List.map_cons, List.flatten_cons]

theorem lit_space : lit " " = [0x20] := rfl

theorem lit_newline : lit "\n" = [0x0A] := rfl

theorem Join_cons_cons (f g : GoString) (rest : List GoString) (sep : GoString) :
    Join (f :: g :: rest) sep = f ++ sep ++ Join (g :: rest) sep := rfl

/-- The runes of fields joined by single spaces: the runes of each field, with
one space rune between neighbours. -/
theorem rangeString_Join (f g : GoString) (rest : List GoString) :
    rangeString (Join (f :: g :: rest) [0x20]) =
      rangeString f ++ (0x20, [0x20]) :: rangeString (Join (g :: rest) [0x20]) := by
  rw [Join_cons_cons, List.append_assoc, List.singleton_append,
    rangeString_append_safe _ (utf8.safe_cons _ (Or.inl (by omega))) _ _ rfl,
    rangeString_ascii _ _ (by omega)]

/-- Splitting the join of a list of fields gives the list back. -/
theorem FieldsFunc_Join : ∀ (fs : List GoString), (∀ f ∈ fs, GoodField f) →
    FieldsFunc (Join fs [0x20]) unicode.IsSpace = fs := by
  intro fs
  induction fs with
  | nil => intro _; rfl
  | cons f rest ih =>
    intro h
    obtain ⟨hne, hns⟩ := h f (List.mem_cons_self _ _)
    have hrest : ∀ g ∈ rest, GoodField g := fun g hg => h g (List.mem_cons_of_mem _ hg)
    have hr : rangeString f ≠ [] := fun e => hne (rangeString_eq_nil e)
    rcases rest with _ | ⟨g, rest⟩
    · unfold FieldsFunc
      have := fieldsLoop_append_none unicode.IsSpace (rangeString f) [] hns hr
      rw [List.append_nil, rangeString_bytes _ f rfl] at this
      exact this
    · have ih1 := ih hrest
      unfold FieldsFunc at ih1 ⊢
      rw [rangeString_Join, fieldsLoop_append_none unicode.IsSpace _ _ hns hr,
        rangeString_bytes _ f rfl]
      simp only [fieldsLoop, isSpace_space, if_true, ih1]

/-- Splitting the join of the fields of a string gives those fields back. -/
theorem Fields_Join_Fields (s : GoString) :
    Fields (Join (Fields s) [0x20]) = Fields s := by
  rw [Fields_eq (Join (Fields s) [0x20])]
  exact FieldsFunc_Join _ (Fields_good s)

/-! ### `strings.ReplaceAll` of a newline by a space -/

theorem ReplaceAll_newline (s : GoString) : ReplaceAll s [0x0A] [0x20] = s.map nl := by
  unfold ReplaceAll
  rw [if_neg (by decide), if_neg (by decide)]
  induction s with
  | nil => rfl
  | cons b t ih =>
    by_cases hb : b = 0x0A
    · subst hb
      simp only [replaceLoop, List.map_cons, nl]
      simpa using ih
    · have h1 : List.isPrefixOf [0x0A] (b :: t) = false := by
        simp [List.isPrefixOf, Ne.symm hb]
      simp only [replaceLoop, h1, List.map_cons, nl, if_neg hb, ih]
      simp

theorem nl_of_ge {x : Nat} (h : 0x80 ≤ x) : nl x = x := by
  unfold nl; rw [if_neg (by omega)]

theorem nl_lt (x : Nat) : nl x < 0x80 ↔ x < 0x80 := by
  unfold nl; split_ifs <;> omega

theorem nl_cond (x lo hi : Nat) (hlo : 0x80 ≤ lo) :
    (nl x < lo ∨ hi < nl x) ↔ (x < lo ∨ hi < x) := by
  unfold nl; split_ifs <;> omega


/-- Replacing newlines by spaces changes neither the first rune nor its bytes,
unless the string starts with a newline. -/
theorem decode_map_nl (b : Nat) (t : GoString) (hb : b ≠ 0x0A) :
    utf8.DecodeRuneInString ((b :: t).map nl) = utf8.DecodeRuneInString (b :: t) ∧
      ((b :: t).map nl).take (utf8.DecodeRuneInString (b :: t)).2 =
        (b :: t).take (utf8.DecodeRuneInString (b :: t)).2 := by
  have hnb : nl b = b := by unfold nl; rw [if_neg hb]
  have hlo := utf8.lo2_ge b
  have hhi := utf8.hi2_le b
  simp only [List.map_cons, hnb]
  rcases utf8.lead_cases b with h | h | h | h | h
  · rw [utf8.decode_ascii b _ h, utf8.decode_ascii b _ h]; exact ⟨rfl, rfl⟩
  · rw [utf8.decode_invalid b _ h, utf8.decode_invalid b _ h]; exact ⟨rfl, rfl⟩
  · rw [utf8.decode_two b _ h, utf8.decode_two b _ h]
    rcases t with _ | ⟨s1, t1⟩
    · exact ⟨rfl, rfl⟩
    · simp only [List.map_cons]
      by_cases c1 : s1 < 0x80 ∨ 0xBF < s1
      · simp only [if_pos c1, if_pos ((nl_cond _ _ _ (le_refl _)).mpr c1)]; exact ⟨trivial, rfl⟩
      · simp only [nl_of_ge (by omega : 0x80 ≤ s1), if_neg c1]; exact ⟨trivial, rfl⟩
  · rw [utf8.decode_three b _ h, utf8.decode_three b _ h]
    rcases t with _ | ⟨s1, _ | ⟨s2, t2⟩⟩
    · exact ⟨rfl, rfl⟩
    · exact ⟨rfl, rfl⟩
    · simp only [List.map_cons]
      by_cases c1 : s1 < utf8.lo2 b ∨ utf8.hi2 b < s1
      · simp only [if_pos c1, if_pos ((nl_cond _ _ _ hlo).mpr c1)]; exact ⟨trivial, rfl⟩
      · simp only [nl_of_ge (by omega : 0x80 ≤ s1), if_neg c1]
        by_cases c2 : s2 < 0x80 ∨ 0xBF < s2
        · simp only [if_pos c2, if_pos ((nl_cond _ _ _ (le_refl _)).mpr c2)]; exact ⟨trivial, rfl⟩
        · simp only [nl_of_ge (by omega : 0x80 ≤ s2), if_neg c2]; exact ⟨trivial, rfl⟩
  · rw [utf8.decode_four b _ h, utf8.decode_four b _ h]
    rcases t with _ | ⟨s1, _ | ⟨s2, _ | ⟨s3, t3⟩⟩⟩
    · exact ⟨rfl, rfl⟩
    · exact ⟨rfl, rfl⟩
    · exact ⟨rfl, rfl⟩
    · simp only [List.map_cons]
      by_cases c1 : s1 < utf8.lo2 b ∨ utf8.hi2 b < s1
      · simp only [if_pos c1, if_pos ((nl_cond _ _ _ hlo).mpr c1)]; exact ⟨trivial, rfl⟩
      · simp only [nl_of_ge (by omega : 0x80 ≤ s1), if_neg c1]
        by_cases c2 : s2 < 0x80 ∨ 0xBF < s2
        · simp only [if_pos c2, if_pos ((nl_cond _ _ _ (le_refl _)).mpr c2)]; exact ⟨trivial, rfl⟩
        · simp only [nl_of_ge (by omega : 0x80 ≤ s2), if_neg c2]
          by_cases c3 : s3 < 0x80 ∨ 0xBF < s3
          · simp only [if_pos c3, if_pos ((nl_cond _ _ _ (le_refl _)).mpr c3)]; exact ⟨trivial, rfl⟩
          · simp only [nl_of_ge (by omega : 0x80 ≤ s3), if_neg c3]; exact ⟨trivial, rfl⟩

/-- The scanning loop does not see the difference between a newline and a
space. -/
theorem fieldsLoop_map_nl : ∀ (n : Nat) (s : GoString), s.length = n →
    ∀ (start : Option GoString),
      fieldsLoop unicode.IsSpace (rangeString (s.map nl)) start =
        fieldsLoop unicode.IsSpace (rangeString s) start := by
  intro n
  induction n using Nat.strong_induction_on with
  | _ n ih =>
    intro s hs start
    rcases s with _ | ⟨b, t⟩
    · rfl
    · by_cases hb : b = 0x0A
      · subst hb
        have e : nl 0x0A = 0x20 := rfl
        rw [List.map_cons, e, rangeString_ascii _ _ (by omega), rangeString_ascii _ _ (by omega)]
        have h1 : unicode.IsSpace 0x0A = true := by decide
        have iht := ih t.length (by rw [← hs]; simp) t rfl
        cases start <;> simp only [fieldsLoop, h1, isSpace_space, if_true, iht]
      · have hsz := utf8.decode_size b t
        obtain ⟨hd, htk⟩ := decode_map_nl b t hb
        have hlt : ((b :: t).drop (utf8.DecodeRuneInString (b :: t)).2).length < n := by
          simp only [List.length_drop, List.length_cons] at *; omega
        have iht := ih _ hlt _ rfl
        have hm : (b :: t).map nl = nl b :: t.map nl := rfl
        rw [rangeString_cons b t]
        rw [hm, rangeString_cons (nl b) (t.map nl), ← hm, hd, htk, ← List.map_drop]
        cases start <;> simp only [fieldsLoop, iht]

/-- The fields of a string do not change when its newlines are replaced by spaces. -/
theorem Fields_ReplaceAll_newline (s : GoString) :
    Fields (ReplaceAll s [0x0A] [0x20]) = Fields s := by
  rw [ReplaceAll_newline, Fields_eq, Fields_eq]
  exact fieldsLoop_map_nl _ s rfl none

end strings

namespace strings

/-- An ASCII byte among the bytes of the first rune is that rune. -/
theorem decode_take_ascii (b : Nat) (t : GoString) (x : Nat)
    (hx : x ∈ (b :: t).take (utf8.DecodeRuneInString (b :: t)).2) (hlt : x < 0x80) :
    utf8.DecodeRuneInString (b :: t) = (x, 1) := by
  have hlo := utf8.lo2_ge b
  have hhi := utf8.hi2_le b
  rcases utf8.lead_cases b with h | h | h | h | h
  · rw [utf8.decode_ascii b _ h] at hx ⊢
    simp at hx
    rw [hx]
  · rw [utf8.decode_invalid b _ h] at hx
    simp at hx
    omega
  · rw [utf8.decode_two b _ h] at hx
    rcases t with _ | ⟨s1, t1⟩
    · simp at hx; omega
    · dsimp only at hx
      split_ifs at hx <;> simp at hx <;> omega
  · rw [utf8.decode_three b _ h] at hx
    rcases t with _ | ⟨s1, _ | ⟨s2, t2⟩⟩
    · simp at hx; omega
    · simp at hx; omega
    · dsimp only at hx
      split_ifs at hx <;> simp at hx <;> omega
  · rw [utf8.decode_four b _ h] at hx
    rcases t with _ | ⟨s1, _ | ⟨s2, _ | ⟨s3, t3⟩⟩⟩
    · simp at hx; omega
    · simp at hx; omega
    · simp at hx; omega
    · dsimp only at hx
      split_ifs at hx <;> simp at hx <;> omega

/-- Every ASCII byte of a string is one of its runes. -/
theorem mem_runes_of_ascii (x : Nat) (hlt : x < 0x80) : ∀ (n : Nat) (s : GoString),
    s.length = n → x ∈ s → x ∈ runes s := by
  intro n
  induction n using Nat.strong_induction_on with
  | _ n ih =>
    intro s hs hx
    rcases s with _ | ⟨b, t⟩
    · simp at hx
    · have hsz := utf8.decode_size b t
      have hlen : ((b :: t).drop (utf8.DecodeRuneInString (b :: t)).2).length < n := by
        simp only [List.length_drop, List.length_cons] at *; omega
      unfold runes
      rw [rangeString_cons, List.map_cons, List.mem_cons]
      rw [← List.take_append_drop (utf8.DecodeRuneInString (b :: t)).2 (b :: t),
        List.mem_append] at hx
      rcases hx with hx | hx
      · left
        rw [decode_take_ascii b t x hx hlt]
      · right
        exact ih _ hlen _ rfl hx

/-- A field contains no ASCII white space byte. -/
theorem GoodField.no_asciiSpace {f : GoString} (hf : GoodField f) :
    ∀ b ∈ f, asciiSpace b = false := by
  intro b hb
  by_contra hc
  have hsp : asciiSpace b = true := by simpa using hc
  have hlt : b < 0x80 := by
    unfold asciiSpace at hsp
    have := of_decide_eq_true hsp
    omega
  have hm := mem_runes_of_ascii b hlt _ f rfl hb
  unfold runes at hm
  rw [List.mem_map] at hm
  obtain ⟨c, hc1, hc2⟩ := hm
  have := hf.2 c hc1
  rw [hc2, isSpace_ascii b hlt, hsp] at this
  exact Bool.noConfusion this

theorem runes_Join (f g : GoString) (rest : List GoString) :
    runes (Join (f :: g :: rest) [0x20]) = runes f ++ 0x20 :: runes (Join (g :: rest) [0x20]) := by
  unfold runes
  rw [rangeString_Join, List.map_append, List.map_cons]

theorem Join_ne_nil (f : GoString) (rest : List GoString) (sep : GoString) (hf : f ≠ []) :
    Join (f :: rest) sep ≠ [] := by
  rcases rest with _ | ⟨g, rest⟩
  · exact hf
  · rw [Join_cons_cons]
    simp [hf]

theorem runes_ne_nil {s : GoString} (h : s ≠ []) : runes s ≠ [] := by
  unfold runes
  intro e
  exact h (rangeString_eq_nil (List.map_eq_nil_iff.mp e))

theorem chain_of_ne_space (l : List Nat) (h : ∀ r ∈ l, r ≠ 0x20) :
    l.Chain' NoDoubleSpace := by
  induction l with
  | nil => exact List.chain'_nil
  | cons a l ih =>
    rw [List.chain'_cons']
    refine ⟨?_, ih (fun r hr => h r (List.mem_cons_of_mem _ hr))⟩
    intro b _ hab
    exact h a (List.mem_cons_self _ _) hab.1

theorem chain_of_no_space (l : List Nat) (h : ∀ r ∈ l, unicode.IsSpace r = false) :
    l.Chain' NoDoubleSpace := by
  apply chain_of_ne_space
  intro r hr e
  have := h r hr
  rw [e, isSpace_space] at this
  exact Bool.noConfusion this

/-- The runes of a join of fields: the only white space is U+0020, it is
neither first nor last, and it never comes twice in a row. -/
theorem runes_Join_normal : ∀ (fs : List GoString), (∀ f ∈ fs, GoodField f) →
    (∀ r ∈ runes (Join fs [0x20]), unicode.IsSpace r = true → r = 0x20) ∧
    (∀ r, (runes (Join fs [0x20])).head? = some r → unicode.IsSpace r = false) ∧
    (∀ r, (runes (Join fs [0x20])).getLast? = some r → unicode.IsSpace r = false) ∧
    (runes (Join fs [0x20])).Chain' NoDoubleSpace := by
  intro fs
  induction fs with
  | nil =>
    intro _
    refine ⟨?_, ?_, ?_, ?_⟩ <;> simp [Join, runes, rangeString_nil]
  | cons f rest ih =>
    intro h
    have hgood := h f (List.mem_cons_self _ _)
    have hrest : ∀ g ∈ rest, GoodField g := fun g hg => h g (List.mem_cons_of_mem _ hg)
    have hf : ∀ r ∈ runes f, unicode.IsSpace r = false := by
      intro r hr
      unfold runes at hr
      rw [List.mem_map] at hr
      obtain ⟨c, hc1, hc2⟩ := hr
      rw [← hc2]; exact hgood.2 c hc1
    have hfne : runes f ≠ [] := runes_ne_nil hgood.1
    rcases rest with _ | ⟨g, rest⟩
    · have e : Join [f] [0x20] = f := rfl
      rw [e]
      refine ⟨?_, ?_, ?_, chain_of_no_space _ hf⟩
      · intro r hr hsp
        rw [hf r hr] at hsp
        exact Bool.noConfusion hsp
      · intro r hr
        exact hf r (List.mem_of_mem_head? hr)
      · intro r hr
        exact hf r (List.mem_of_mem_getLast? hr)
    · obtain ⟨ih1, ih2, ih3, ih4⟩ := ih hrest
      have hJ : runes (Join (g :: rest) [0x20]) ≠ [] :=
        runes_ne_nil (Join_ne_nil g rest _ (hrest g (List.mem_cons_self _ _)).1)
      rw [runes_Join]
      refine ⟨?_, ?_, ?_, ?_⟩
      · intro r hr hsp
        rw [List.mem_append, List.mem_cons] at hr
        rcases hr with hr | hr | hr
        · rw [hf r hr] at hsp
          exact Bool.noConfusion hsp
        · exact hr
        · exact ih1 r hr hsp
      · intro r hr
        rw [List.head?_append_of_ne_nil _ hfne] at hr
        exact hf r (List.mem_of_mem_head? hr)
      · intro r hr
        obtain ⟨c, l, e⟩ := List.exists_cons_of_ne_nil hJ
        rw [List.getLast?_append_of_ne_nil _ (List.cons_ne_nil _ _), e,
          List.getLast?_cons_cons, ← e] at hr
        exact ih3 r hr
      · rw [List.chain'_append]
        refine ⟨chain_of_no_space _ hf, ?_, ?_⟩
        · rw [List.chain'_cons']
          refine ⟨?_, ih4⟩
          intro b hb hab
          have := ih2 b hb
          rw [hab.2, isSpace_space] at this
          exact Bool.noConfusion this
        · intro a ha b _ hab
          have := hf a (List.mem_of_mem_getLast? ha)
          rw [hab.1, isSpace_space] at this
          exact Bool.noConfusion this

end strings

/-- The function `formatSQL` joins the fields of its argument itself. -/
theorem formatSQL_eq (s : GoString) : formatSQL s = strings.Join (strings.Fields s) [0x20] := by
  unfold formatSQL
  simp only [strings.lit_space, strings.lit_newline, strings.Fields_ReplaceAll_newline]


namespace fmt

theorem digitsValue_append (ds : GoString) (b : Nat) :
    digitsValue (ds ++ [b]) = 10 * digitsValue ds + (b - 0x30) := by
  unfold digitsValue
  rw [List.foldl_append]
  rfl

/-- The digit loop writes the canonical digits of `u` in front of `acc`. -/
theorem fmtDigits_spec (fuel : Nat) : ∀ (u : Nat) (acc : GoString), u < fuel →
    ∃ ds : GoString, fmtDigits fuel u acc = ds ++ acc ∧ ds ≠ [] ∧
      (∀ b ∈ ds, 0x30 ≤ b ∧ b ≤ 0x39) ∧ (ds.head? = some 0x30 → ds = [0x30]) ∧
      digitsValue ds = u := by
  induction fuel with
  | zero => intro u acc h; exact absurd h (Nat.not_lt_zero _)
  | succ fuel ih =>
    intro u acc hu
    by_cases h10 : u < 10
    · refine ⟨[0x30 + u], ?_, List.cons_ne_nil _ _, ?_, fun _ => ?_, ?_⟩
      · simp only [fmtDigits, if_pos h10, List.singleton_append]
      · intro b hb
        rw [List.mem_singleton] at hb
        omega
      · rename_i hh
        simp only [List.head?_cons, Option.some.injEq] at hh
        rw [hh]
      · simp only [digitsValue, List.foldl_cons, List.foldl_nil]
        omega
    · obtain ⟨ds, h1, h2, h3, h4, h5⟩ := ih (u / 10) ((0x30 + u % 10) :: acc) (by omega)
      refine ⟨ds ++ [0x30 + u % 10], ?_, by simp, ?_, ?_, ?_⟩
      · simp only [fmtDigits, if_neg h10, h1, List.append_assoc, List.singleton_append]
      · intro b hb
        rw [List.mem_append, List.mem_singleton] at hb
        rcases hb with hb | hb
        · exact h3 b hb
        · omega
      · intro hh
        rw [List.head?_append_of_ne_nil _ h2] at hh
        have := h4 hh
        rw [this] at h5
        simp only [digitsValue, List.foldl_cons, List.foldl_nil] at h5
        omega
      · rw [digitsValue_append, h5]
        omega

/-- The verb `%d` gives the decimal rendering of the number. -/
theorem Sprintf_d_isDecimal (n : Int) : IsDecimal (Sprintf_d n) n := by
  obtain ⟨ds, h1, h2, h3, h4, h5⟩ := fmtDigits_spec (n.natAbs + 1) n.natAbs [] (Nat.lt_succ_self _)
  rw [List.append_nil] at h1
  refine ⟨ds, h2, h3, h4, h5, ?_⟩
  unfold Sprintf_d
  rw [h1]

end fmt

namespace strings

/-- The only ASCII white space byte in a join of fields is the separating space. -/
theorem Join_asciiSpace : ∀ (fs : List GoString), (∀ f ∈ fs, GoodField f) →
    ∀ b ∈ Join fs [0x20], asciiSpace b = true → b = 0x20 := by
  intro fs
  induction fs with
  | nil => intro _ b hb; simp [Join] at hb
  | cons f rest ih =>
    intro h b hb hsp
    have hgood := h f (List.mem_cons_self _ _)
    have hrest : ∀ g ∈ rest, GoodField g := fun g hg => h g (List.mem_cons_of_mem _ hg)
    rcases rest with _ | ⟨g, rest⟩
    · have e : Join [f] [0x20] = f := rfl
      rw [e] at hb
      rw [hgood.no_asciiSpace b hb] at hsp
      exact Bool.noConfusion hsp
    · rw [Join_cons_cons, List.mem_append, List.mem_append, List.mem_singleton] at hb
      rcases hb with (hb | hb) | hb
      · rw [hgood.no_asciiSpace b hb] at hsp
        exact Bool.noConfusion hsp
      · exact hb
      · exact ih hrest b hb hsp

/-- A field contains no space byte. -/
theorem GoodField.ne_space {f : GoString} (hf : GoodField f) : ∀ b ∈ f, b ≠ 0x20 := by
  intro b hb e
  have := hf.no_asciiSpace b hb
  rw [e] at this
  revert this
  decide

/-- No two neighbouring bytes of a join of fields are both spaces. -/
theorem Join_chain : ∀ (fs : List GoString), (∀ f ∈ fs, GoodField f) →
    (Join fs [0x20]).Chain' NoDoubleSpace := by
  intro fs
  induction fs with
  | nil => intro _; exact List.chain'_nil
  | cons f rest ih =>
    intro h
    have hgood := h f (List.mem_cons_self _ _)
    have hrest : ∀ g ∈ rest, GoodField g := fun g hg => h g (List.mem_cons_of_mem _ hg)
    rcases rest with _ | ⟨g, rest⟩
    · exact chain_of_ne_space f hgood.ne_space
    · have hg := hrest g (List.mem_cons_self _ _)
      rw [Join_cons_cons, List.append_assoc, List.singleton_append, List.chain'_append]
      refine ⟨chain_of_ne_space f hgood.ne_space, ?_, ?_⟩
      · rw [List.chain'_cons']
        refine ⟨?_, ih hrest⟩
        intro b hb hab
        obtain ⟨c, g1, e⟩ := List.exists_cons_of_ne_nil hg.1
        have hJ : (Join (g :: rest) [0x20]).head? = some c := by
          rcases rest with _ | ⟨g2, rest⟩
          · show g.head? = some c
            rw [e]; rfl
          · rw [Join_cons_cons, List.append_assoc, e]; rfl
        rw [hJ] at hb
        have hbc : c = b := by simpa using hb
        exact hg.ne_space c (by rw [e]; exact List.mem_cons_self _ _) (hbc.trans hab.2)
      · intro a ha b _ hab
        exact hgood.ne_space a (List.mem_of_mem_getLast? ha) hab.1

end strings

/-! ## Formatting and classification lemmas -/

theorem logMessage_Error (ctx : Context) (msg : GoString) (kv : List (GoString × GoString)) :
    logMessage ctx logger.Error msg kv = [⟨ctx, slog.Severity.Error, msg, kv⟩] := by
  simp [logMessage]

theorem logMessage_Warn (ctx : Context) (msg : GoString) (kv : List (GoString × GoString)) :
    logMessage ctx logger.Warn msg kv = [⟨ctx, slog.Severity.Warn, msg, kv⟩] := by
  simp [logMessage, logger.Warn, logger.Error]

theorem logMessage_Info (ctx : Context) (msg : GoString) (kv : List (GoString × GoString)) :
    logMessage ctx logger.Info msg kv = [⟨ctx, slog.Severity.Info, msg, kv⟩] := by
  simp [logMessage, logger.Warn, logger.Error, logger.Info]

theorem traceMessage_eq (ms : GoString) (rows : Int) (sql : GoString) :
    traceMessage ms rows sql =
      lit "[" ++ ms ++ lit "ms] " ++ (lit "[rows:" ++ rowsStr rows ++ lit "]") ++ lit " " ++
        formatSQL sql := by
  have e1 : lit "ms] [rows:" = lit "ms] " ++ lit "[rows:" := by decide
  have e2 : lit "] " = lit "]" ++ lit " " := by decide
  unfold traceMessage
  rw [e1, e2]
  simp only [List.append_assoc]

/-- Every line a trace emits carries the message `traceMessage` composes. -/
theorem Trace_msg {σ : Type} (since : Time → Duration)
    (fmtMs : Duration → GoString) (ctx : Context) (begin : Time)
    (fc : World σ → (GoString × Int) × World σ) (err : Option GoString) (w : World σ) :
    ∀ r ∈ (Slog.Trace since fmtMs ctx begin fc err w).records,
      r.msg = traceMessage (fmtMs (since begin)) (fc w).1.2 (fc w).1.1 := by
  intro r hr
  unfold Slog.Trace at hr
  simp only [logMessage_Error, logMessage_Warn, logMessage_Info] at hr
  split at hr
  · simp at hr
  · dsimp only at hr
    split at hr
    · rw [List.mem_singleton] at hr; rw [hr]
    · split_ifs at hr
      · rw [List.mem_singleton] at hr; rw [hr]
      · rw [List.mem_singleton] at hr; rw [hr]
      · simp at hr

/-- A trace whose callback lowers the level: called at level `Info` with an
error, the callback calls `log.LogMode(logger.Silent)`; the `switch` reads
`Silent` and nothing is emitted. -/
theorem Trace_callback_lowers_level :
    (Slog.Trace (fun _ => 1000000) (fun _ => lit "1.000") 0 0
      (fun (w : World Unit) =>
        ((lit "SELECT 1", 1), { w with log := { w.log with LogLevel := logger.Silent } }))
      (some (lit "boom")) ⟨⟨logger.Info, 0⟩, ()⟩).records = [] := by
  decide

/-- A trace whose callback raises the level: called at level `Error` with no
error, the callback calls `log.LogMode(logger.Info)`; the `switch` reads `Info`
and an `Info` line is emitted. -/
theorem Trace_callback_raises_level :
    (Slog.Trace (fun _ => 1000000) (fun _ => lit "1.000") 0 0
      (fun (w : World Unit) =>
        ((lit "SELECT 1", 1), { w with log := { w.log with LogLevel := logger.Info } }))
      none ⟨⟨logger.Error, 0⟩, ()⟩).records =
      [⟨0, slog.Severity.Info, lit "[1.000ms] [rows:1] SELECT 1", []⟩] := by
  decide

/-- A trace whose callback sets the slow threshold: called at level `Info` with
threshold zero, one second elapsed, the callback assigns
`log.SlowThreshold = 1`; the `switch` reads 1 and a `Warn` line is emitted. -/
theorem Trace_callback_sets_threshold :
    (Slog.Trace (fun _ => 1000000000) (fun _ => lit "1000.000") 0 0
      (fun (w : World Unit) =>
        ((lit "SELECT 1", 1), { w with log := { w.log with SlowThreshold := 1 } }))
      none ⟨⟨logger.Info, 0⟩, ()⟩).records =
      [⟨0, slog.Severity.Warn, lit "[1000.000ms] [rows:1] SELECT 1", []⟩] := by
  decide

/-! ## Properties of `Trace`, the free-text methods and `LogMode` -/

/-- C1: a trace with a non-nil error whose level, as the `switch` reads it after
the callback, is at or above `Error` emits exactly one line, at `Error`
severity, whatever the SQL text, row count, start time and slow threshold are
(so also when the query is slow).  The level at the call must be above `Silent`
for the callback to run at all; a callback that leaves the logger alone makes
the two levels one. -/
theorem Trace_error_emits_Error {σ : Type} (since : Time → Duration)
    (fmtMs : Duration → GoString) (ctx : Context) (begin : Time)
    (fc : World σ → (GoString × Int) × World σ) (text : GoString) (w : World σ)
    (hcall : logger.Silent < w.log.LogLevel)
    (hlevel : (fc w).2.log.LogLevel ≥ logger.Error) :
    ∃ r, (Slog.Trace since fmtMs ctx begin fc (some text) w).records = [r] ∧
      r.severity = slog.Severity.Error := by
  have h1 : ¬ w.log.LogLevel ≤ logger.Silent := not_le.mpr hcall
  simp only [Slog.Trace, if_neg h1, decide_eq_true hlevel, logMessage_Error]
  exact ⟨_, rfl, rfl⟩

/-- Witness for C1: level `Error`, a non-zero threshold of 1 ms and 1 s elapsed,
a callback that leaves the logger alone. -/
theorem Trace_error_emits_Error_witness :
    logger.Silent < (⟨⟨2, 1000000⟩, ()⟩ : World Unit).log.LogLevel ∧
    ((fun (w : World Unit) => ((lit "SELECT * FROM users", (10 : Int)), w))
      ⟨⟨2, 1000000⟩, ()⟩).2.log.LogLevel ≥ logger.Error ∧
    ∃ r, (Slog.Trace (fun _ => 1000000000) (fun _ => lit "1000.000") 0 0
        (fun (w : World Unit) => ((lit "SELECT * FROM users", 10), w))
        (some (lit "database error")) ⟨⟨2, 1000000⟩, ()⟩).records = [r] ∧
      r.severity = slog.Severity.Error :=
  ⟨by decide, by decide,
    Trace_error_emits_Error (fun _ => 1000000000) (fun _ => lit "1000.000") 0 0
      (fun (w : World Unit) => ((lit "SELECT * FROM users", 10), w))
      (lit "database error") ⟨⟨2, 1000000⟩, ()⟩ (by decide) (by decide)⟩

/-- C2: a trace with no error and no slow-query condition (elapsed not above the
threshold the `switch` reads, or that threshold zero) emits exactly one line, at
`Info` severity, when the level the `switch` reads is exactly `Info`, and
nothing at every other level, nor when the level at the call is not above
`Silent`. -/
theorem Trace_plain_emits_Info_only_at_Info {σ : Type} (since : Time → Duration)
    (fmtMs : Duration → GoString) (ctx : Context) (begin : Time)
    (fc : World σ → (GoString × Int) × World σ) (w : World σ)
    (hslow : since begin ≤ (fc w).2.log.SlowThreshold ∨ (fc w).2.log.SlowThreshold = 0) :
    (logger.Silent < w.log.LogLevel → (fc w).2.log.LogLevel = logger.Info →
      ∃ r, (Slog.Trace since fmtMs ctx begin fc none w).records = [r] ∧
        r.severity = slog.Severity.Info) ∧
    (w.log.LogLevel ≤ logger.Silent ∨ (fc w).2.log.LogLevel ≠ logger.Info →
      (Slog.Trace since fmtMs ctx begin fc none w).records = []) := by
  have hs : ¬ (since begin > (fc w).2.log.SlowThreshold ∧ (fc w).2.log.SlowThreshold ≠ 0 ∧
      (fc w).2.log.LogLevel ≥ logger.Warn) := by
    rintro ⟨h1, h2, -⟩
    rcases hslow with h | h
    · exact absurd h1 (not_lt.mpr h)
    · exact h2 h
  constructor
  · intro hcall hl
    have h1 : ¬ w.log.LogLevel ≤ logger.Silent := not_le.mpr hcall
    simp only [Slog.Trace, if_neg h1, if_neg hs, if_pos hl, logMessage_Info]
    exact ⟨_, rfl, rfl⟩
  · intro h
    by_cases h1 : w.log.LogLevel ≤ logger.Silent
    · simp only [Slog.Trace, if_pos h1]
    · have hl : (fc w).2.log.LogLevel ≠ logger.Info := by
        rcases h with h | h
        · exact absurd h h1
        · exact h
      simp only [Slog.Trace, if_neg h1, if_neg hs, if_neg hl]

/-- Witness for C2: level `Info`, 1 ms elapsed against a threshold of 1 s, a
callback that leaves the logger alone. -/
theorem Trace_plain_emits_Info_only_at_Info_witness :
    ((1000000 : Int) ≤
        ((fun (w : World Unit) => ((lit "SELECT * FROM users", (10 : Int)), w))
          ⟨⟨4, 1000000000⟩, ()⟩).2.log.SlowThreshold ∨
      ((fun (w : World Unit) => ((lit "SELECT * FROM users", (10 : Int)), w))
          ⟨⟨4, 1000000000⟩, ()⟩).2.log.SlowThreshold = 0) ∧
    (∃ r, (Slog.Trace (fun _ => 1000000) (fun _ => lit "1.000") 0 0
          (fun (w : World Unit) => ((lit "SELECT * FROM users", 10), w)) none
          ⟨⟨4, 1000000000⟩, ()⟩).records = [r] ∧
        r.severity = slog.Severity.Info) :=
  ⟨by decide,
    (Trace_plain_emits_Info_only_at_Info (fun _ => 1000000) (fun _ => lit "1.000") 0 0
      (fun (w : World Unit) => ((lit "SELECT * FROM users", 10), w))
      ⟨⟨4, 1000000000⟩, ()⟩ (by decide)).1 (by decide) (by decide)⟩

/-- C3: a trace with no error, a non-zero slow threshold, elapsed time strictly
above it and a level at or above `Warn`, threshold and level being those the
`switch` reads after the callback, emits exactly one line, at `Warn` severity,
also when the level is `Info`.  The level at the call must be above `Silent`. -/
theorem Trace_slow_emits_Warn {σ : Type} (since : Time → Duration)
    (fmtMs : Duration → GoString) (ctx : Context) (begin : Time)
    (fc : World σ → (GoString × Int) × World σ) (w : World σ)
    (hcall : logger.Silent < w.log.LogLevel)
    (hthr : (fc w).2.log.SlowThreshold ≠ 0)
    (hslow : since begin > (fc w).2.log.SlowThreshold)
    (hlevel : (fc w).2.log.LogLevel ≥ logger.Warn) :
    ∃ r, (Slog.Trace since fmtMs ctx begin fc none w).records = [r] ∧
      r.severity = slog.Severity.Warn := by
  have h1 : ¬ w.log.LogLevel ≤ logger.Silent := not_le.mpr hcall
  have hs : since begin > (fc w).2.log.SlowThreshold ∧ (fc w).2.log.SlowThreshold ≠ 0 ∧
      (fc w).2.log.LogLevel ≥ logger.Warn := ⟨hslow, hthr, hlevel⟩
  simp only [Slog.Trace, if_neg h1, if_pos hs, logMessage_Warn]
  exact ⟨_, rfl, rfl⟩

/-- Witness for C3: level `Info`, 1 s elapsed against a threshold of 1 ms, a
callback that leaves the logger alone. -/
theorem Trace_slow_emits_Warn_witness :
    logger.Silent < (⟨⟨4, 1000000⟩, ()⟩ : World Unit).log.LogLevel ∧
    ((fun (w : World Unit) => ((lit "SELECT * FROM users", (10 : Int)), w))
      ⟨⟨4, 1000000⟩, ()⟩).2.log.SlowThreshold ≠ 0 ∧
    (1000000000 : Int) >
      ((fun (w : World Unit) => ((lit "SELECT * FROM users", (10 : Int)), w))
        ⟨⟨4, 1000000⟩, ()⟩).2.log.SlowThreshold ∧
    ((fun (w : World Unit) => ((lit "SELECT * FROM users", (10 : Int)), w))
      ⟨⟨4, 1000000⟩, ()⟩).2.log.LogLevel ≥ logger.Warn ∧
    ∃ r, (Slog.Trace (fun _ => 1000000000) (fun _ => lit "1000.000") 0 0
        (fun (w : World Unit) => ((lit "SELECT * FROM users", 10), w)) none
        ⟨⟨4, 1000000⟩, ()⟩).records = [r] ∧
      r.severity = slog.Severity.Warn :=
  ⟨by decide, by decide, by decide, by decide,
    Trace_slow_emits_Warn (fun _ => 1000000000) (fun _ => lit "1000.000") 0 0
      (fun (w : World Unit) => ((lit "SELECT * FROM users", 10), w))
      ⟨⟨4, 1000000⟩, ()⟩ (by decide) (by decide) (by decide) (by decide)⟩

/-- C4: at level `Silent` a trace does not call the callback, leaves the memory,
the logger included, as it was and emits no line, for every start time,
threshold, callback and error. -/
theorem Trace_Silent_does_nothing {σ : Type} (since : Time → Duration)
    (fmtMs : Duration → GoString) (ctx : Context) (begin : Time)
    (fc : World σ → (GoString × Int) × World σ) (err : Option GoString) (w : World σ)
    (hlevel : w.log.LogLevel = logger.Silent) :
    (Slog.Trace since fmtMs ctx begin fc err w).fcCalls = 0 ∧
    (Slog.Trace since fmtMs ctx begin fc err w).state = w ∧
    (Slog.Trace since fmtMs ctx begin fc err w).records = [] := by
  have h1 : w.log.LogLevel ≤ logger.Silent := le_of_eq hlevel
  simp only [Slog.Trace, if_pos h1, and_self]

/-- Witness for C4: level `Silent`, a callback that counts its calls and would
raise the level, an error and a slow query. -/
theorem Trace_Silent_does_nothing_witness :
    (⟨⟨1, 1000000⟩, 7⟩ : World Nat).log.LogLevel = logger.Silent ∧
    (Slog.Trace (fun _ => 1000000000) (fun _ => lit "1000.000") 0 0
        (fun (w : World Nat) => ((lit "SELECT 1", 1), ⟨⟨logger.Info, 1⟩, w.user + 1⟩))
        (some (lit "boom")) ⟨⟨1, 1000000⟩, 7⟩).fcCalls = 0 ∧
    (Slog.Trace (fun _ => 1000000000) (fun _ => lit "1000.000") 0 0
        (fun (w : World Nat) => ((lit "SELECT 1", 1), ⟨⟨logger.Info, 1⟩, w.user + 1⟩))
        (some (lit "boom")) ⟨⟨1, 1000000⟩, 7⟩).state = ⟨⟨1, 1000000⟩, 7⟩ ∧
    (Slog.Trace (fun _ => 1000000000) (fun _ => lit "1000.000") 0 0
        (fun (w : World Nat) => ((lit "SELECT 1", 1), ⟨⟨logger.Info, 1⟩, w.user + 1⟩))
        (some (lit "boom")) ⟨⟨1, 1000000⟩, 7⟩).records = [] :=
  ⟨by decide,
    Trace_Silent_does_nothing (fun _ => 1000000000) (fun _ => lit "1000.000") 0 0
      (fun (w : World Nat) => ((lit "SELECT 1", 1), ⟨⟨logger.Info, 1⟩, w.user + 1⟩))
      (some (lit "boom")) ⟨⟨1, 1000000⟩, 7⟩ (by decide)⟩

/-- C5: each of `Info`, `Warn`, `Error` emits exactly one line, at its own
severity, when the level is at or above that severity in the order
`Silent < Error < Warn < Info`, and nothing otherwise. -/
theorem freeText_emits_iff_level {α : Type} (Sprintf : GoString → List α → GoString)
    (m : slog.Severity) (log : Slog) (ctx : Context) (msg : GoString) (data : List α) :
    (logger.Silent < logger.Error ∧ logger.Error < logger.Warn ∧ logger.Warn < logger.Info) ∧
    (log.LogLevel ≥ levelOf m →
      ∃ r, freeText Sprintf m log ctx msg data = [r] ∧ r.severity = m) ∧
    (¬ log.LogLevel ≥ levelOf m → freeText Sprintf m log ctx msg data = []) := by
  refine ⟨by decide, ?_, ?_⟩
  · intro h
    cases m
    · exact ⟨⟨ctx, slog.Severity.Error, Sprintf msg data, []⟩,
        by simp only [freeText, Slog.Error]; exact if_pos h, rfl⟩
    · exact ⟨⟨ctx, slog.Severity.Warn, Sprintf msg data, []⟩,
        by simp only [freeText, Slog.Warn]; exact if_pos h, rfl⟩
    · exact ⟨⟨ctx, slog.Severity.Info, Sprintf msg data, []⟩,
        by simp only [freeText, Slog.Info]; exact if_pos h, rfl⟩
  · intro h
    cases m
    · simp only [freeText, Slog.Error]; exact if_neg h
    · simp only [freeText, Slog.Warn]; exact if_neg h
    · simp only [freeText, Slog.Info]; exact if_neg h

/-- Witness for C5: at level `Warn`, `Info` emits nothing while `Warn` and `Error`
each emit one line. -/
theorem freeText_emits_iff_level_witness :
    Slog.Info (fun m (_ : List Unit) => m) ⟨logger.Warn, 0⟩ 0 (lit "test message") [()] = [] ∧
    (∃ r, Slog.Warn (fun m (_ : List Unit) => m) ⟨logger.Warn, 0⟩ 0 (lit "test message") [()]
      = [r] ∧ r.severity = slog.Severity.Warn) ∧
    (∃ r, Slog.Error (fun m (_ : List Unit) => m) ⟨logger.Warn, 0⟩ 0 (lit "test message") [()]
      = [r] ∧ r.severity = slog.Severity.Error) :=
  ⟨(freeText_emits_iff_level (fun m (_ : List Unit) => m) slog.Severity.Info
      ⟨logger.Warn, 0⟩ 0 (lit "test message") [()]).2.2 (by decide),
   (freeText_emits_iff_level (fun m (_ : List Unit) => m) slog.Severity.Warn
      ⟨logger.Warn, 0⟩ 0 (lit "test message") [()]).2.1 (by decide),
   (freeText_emits_iff_level (fun m (_ : List Unit) => m) slog.Severity.Error
      ⟨logger.Warn, 0⟩ 0 (lit "test message") [()]).2.1 (by decide)⟩

/-- C6: every trace emits no line or exactly one line. -/
theorem Trace_emits_at_most_one {σ : Type} (since : Time → Duration)
    (fmtMs : Duration → GoString) (ctx : Context) (begin : Time)
    (fc : World σ → (GoString × Int) × World σ) (err : Option GoString) (w : World σ) :
    (Slog.Trace since fmtMs ctx begin fc err w).records = [] ∨
    ∃ r, (Slog.Trace since fmtMs ctx begin fc err w).records = [r] := by
  unfold Slog.Trace
  simp only [logMessage_Error, logMessage_Warn, logMessage_Info]
  split
  · exact Or.inl rfl
  · dsimp only
    split
    · exact Or.inr ⟨_, rfl⟩
    · split
      · exact Or.inr ⟨_, rfl⟩
      · split
        · exact Or.inr ⟨_, rfl⟩
        · exact Or.inl rfl

/-- C7: `LogMode(L)` on a logger returns that same logger, whose level is now `L`
and whose slow threshold is what it was; no other logger changes. -/
theorem LogMode_sets_level (log : Ptr) (level : logger.LogLevel) (h : Heap) (v : Slog)
    (hv : h log = some v) :
    ∃ h1, Slog.LogMode log level h = some (log, h1) ∧
      h1 log = some { LogLevel := level, SlowThreshold := v.SlowThreshold } ∧
      ∀ q, q ≠ log → h1 q = h q := by
  refine ⟨Function.update h log (some { v with LogLevel := level }), ?_, ?_, ?_⟩
  · simp only [Slog.LogMode, hv]
  · simp only [Function.update_same]
  · intro q hq
    simp only [Function.update_noteq hq]

/-- Witness for C7: a logger at `Info` with a threshold of 1 s, set to `Error`. -/
theorem LogMode_sets_level_witness :
    ∃ h1, Slog.LogMode 1 logger.Error (fun p => if p = 1 then some ⟨logger.Info, 1000000000⟩ else none)
        = some (1, h1) ∧
      h1 1 = some { LogLevel := logger.Error, SlowThreshold := 1000000000 } ∧
      ∀ q, q ≠ 1 → h1 q = (fun p => if p = 1 then some ⟨logger.Info, 1000000000⟩ else none) q :=
  LogMode_sets_level 1 logger.Error _ ⟨logger.Info, 1000000000⟩ (by decide)

/-! ## Properties of `formatSQL` -/

/-- C8: the result of `formatSQL` has no white space rune at its start or at its
end, no white space rune other than the space U+0020 (and no ASCII white space
byte other than 0x20, so no line break and no tab), and no two spaces in a row,
neither as runes nor as bytes; the two test strings normalise as expected. -/
theorem formatSQL_normal_form :
    (∀ s : GoString,
      (∀ r, (runes (formatSQL s)).head? = some r → unicode.IsSpace r = false) ∧
      (∀ r, (runes (formatSQL s)).getLast? = some r → unicode.IsSpace r = false) ∧
      (∀ r ∈ runes (formatSQL s), unicode.IsSpace r = true → r = 0x20) ∧
      (∀ b ∈ formatSQL s, strings.asciiSpace b = true → b = 0x20) ∧
      (runes (formatSQL s)).Chain' NoDoubleSpace ∧
      (formatSQL s).Chain' NoDoubleSpace) ∧
    formatSQL (lit "  SELECT  *  FROM  users  ") = lit "SELECT * FROM users" ∧
    formatSQL (lit "\n\t\tSELECT *\n\t\tFROM users\n\t\tWHERE id = 1\n\t") =
      lit "SELECT * FROM users WHERE id = 1" := by
  refine ⟨fun s => ?_, by decide, by decide⟩
  rw [formatSQL_eq]
  obtain ⟨h1, h2, h3, h4⟩ := strings.runes_Join_normal _ (strings.Fields_good s)
  exact ⟨h2, h3, h1, strings.Join_asciiSpace _ (strings.Fields_good s), h4,
    strings.Join_chain _ (strings.Fields_good s)⟩

/-- C9: `formatSQL` is idempotent. -/
theorem formatSQL_idempotent (s : GoString) : formatSQL (formatSQL s) = formatSQL s := by
  rw [formatSQL_eq (formatSQL s), formatSQL_eq s, strings.Fields_Join_Fields]

/-- C10: in the message of a line a trace emits, the row-count bracket is
`[rows:-]` when the callback returned -1, which contains no digit and is not
`[rows:-1]`, and `[rows:<n>]` with `<n>` the decimal rendering of the count
otherwise. -/
theorem Trace_rows_bracket {σ : Type} (since : Time → Duration)
    (fmtMs : Duration → GoString) (ctx : Context) (begin : Time)
    (fc : World σ → (GoString × Int) × World σ) (err : Option GoString) (w : World σ)
    (r : slog.Record)
    (hr : r ∈ (Slog.Trace since fmtMs ctx begin fc err w).records) :
    ∃ bracket : GoString,
      r.msg = lit "[" ++ fmtMs (since begin) ++ lit "ms] " ++ bracket ++ lit " " ++
        formatSQL (fc w).1.1 ∧
      ((fc w).1.2 = -1 →
        bracket = lit "[rows:-]" ∧ (∀ b ∈ bracket, ¬ (0x30 ≤ b ∧ b ≤ 0x39)) ∧
          bracket ≠ lit "[rows:-1]") ∧
      ((fc w).1.2 ≠ -1 →
        ∃ d, IsDecimal d (fc w).1.2 ∧ bracket = lit "[rows:" ++ d ++ lit "]") := by
  refine ⟨lit "[rows:" ++ rowsStr (fc w).1.2 ++ lit "]", ?_, ?_, ?_⟩
  · rw [Trace_msg since fmtMs ctx begin fc err w r hr, traceMessage_eq]
  · intro h
    rw [h]
    decide
  · intro h
    refine ⟨fmt.Sprintf_d (fc w).1.2, fmt.Sprintf_d_isDecimal _, ?_⟩
    unfold rowsStr
    rw [if_neg h]

/-- Witness for C10: at level `Info` a query whose callback returns the row count
-1 is logged with the bracket `[rows:-]`. -/
theorem Trace_rows_bracket_witness :
    (⟨0, slog.Severity.Info, lit "[1.000ms] [rows:-] SELECT 1", []⟩ : slog.Record) ∈
      (Slog.Trace (fun _ => 1000000) (fun _ => lit "1.000") 0 0
        (fun (w : World Unit) => ((lit "SELECT\n1", -1), w)) none
        ⟨⟨logger.Info, 0⟩, ()⟩).records ∧
    ∃ bracket : GoString,
      lit "[1.000ms] [rows:-] SELECT 1" =
        lit "[" ++ lit "1.000" ++ lit "ms] " ++ bracket ++ lit " " ++ formatSQL (lit "SELECT\n1") ∧
      (((-1 : Int)) = -1 →
        bracket = lit "[rows:-]" ∧ (∀ b ∈ bracket, ¬ (0x30 ≤ b ∧ b ≤ 0x39)) ∧
          bracket ≠ lit "[rows:-1]") ∧
      (((-1 : Int)) ≠ -1 →
        ∃ d, IsDecimal d (-1) ∧ bracket = lit "[rows:" ++ d ++ lit "]") :=
  ⟨by decide,
    Trace_rows_bracket (fun _ => 1000000) (fun _ => lit "1.000") 0 0
      (fun (w : World Unit) => ((lit "SELECT\n1", -1), w)) none ⟨⟨logger.Info, 0⟩, ()⟩
      ⟨0, slog.Severity.Info, lit "[1.000ms] [rows:-] SELECT 1", []⟩ (by decide)⟩

/-! ## Further properties of `Trace` -/

/-- Every line a trace emits comes from one of the three cases of the `switch`:
the level at the call is above `Silent`, the line carries the context and the
composed message, and its severity and attributes are those of the first case
whose condition holds for the logger as the callback left it. -/
theorem Trace_mem_records {σ : Type} (since : Time → Duration)
    (fmtMs : Duration → GoString) (ctx : Context) (begin : Time)
    (fc : World σ → (GoString × Int) × World σ) (err : Option GoString) (w : World σ)
    (r : slog.Record)
    (hr : r ∈ (Slog.Trace since fmtMs ctx begin fc err w).records) :
    ¬ w.log.LogLevel ≤ logger.Silent ∧ r.ctx = ctx ∧
    ((∃ text, err = some text ∧ (fc w).2.log.LogLevel ≥ logger.Error ∧
        r.severity = slog.Severity.Error ∧ r.attrs = [(lit "error", text)]) ∨
     ((err = none ∨ ¬ (fc w).2.log.LogLevel ≥ logger.Error) ∧
        since begin > (fc w).2.log.SlowThreshold ∧ (fc w).2.log.SlowThreshold ≠ 0 ∧
        (fc w).2.log.LogLevel ≥ logger.Warn ∧
        r.severity = slog.Severity.Warn ∧ r.attrs = []) ∨
     ((err = none ∨ ¬ (fc w).2.log.LogLevel ≥ logger.Error) ∧
        ¬ (since begin > (fc w).2.log.SlowThreshold ∧ (fc w).2.log.SlowThreshold ≠ 0 ∧
          (fc w).2.log.LogLevel ≥ logger.Warn) ∧
        (fc w).2.log.LogLevel = logger.Info ∧ r.severity = slog.Severity.Info ∧
        r.attrs = [])) := by
  by_cases hs : w.log.LogLevel ≤ logger.Silent
  · simp only [Slog.Trace, if_pos hs] at hr
    simp at hr
  refine ⟨hs, ?_⟩
  have hrest : ∀ e : Option GoString, (e = none ∨ ¬ (fc w).2.log.LogLevel ≥ logger.Error) →
      r ∈ (if since begin > (fc w).2.log.SlowThreshold ∧ (fc w).2.log.SlowThreshold ≠ 0 ∧
            (fc w).2.log.LogLevel ≥ logger.Warn then
          logMessage ctx logger.Warn
            (traceMessage (fmtMs (since begin)) (fc w).1.2 (fc w).1.1) []
        else if (fc w).2.log.LogLevel = logger.Info then
          logMessage ctx logger.Info
            (traceMessage (fmtMs (since begin)) (fc w).1.2 (fc w).1.1) []
        else []) →
      r.ctx = ctx ∧
      ((∃ text, e = some text ∧ (fc w).2.log.LogLevel ≥ logger.Error ∧
          r.severity = slog.Severity.Error ∧ r.attrs = [(lit "error", text)]) ∨
      ((e = none ∨ ¬ (fc w).2.log.LogLevel ≥ logger.Error) ∧
          since begin > (fc w).2.log.SlowThreshold ∧ (fc w).2.log.SlowThreshold ≠ 0 ∧
          (fc w).2.log.LogLevel ≥ logger.Warn ∧
          r.severity = slog.Severity.Warn ∧ r.attrs = []) ∨
      ((e = none ∨ ¬ (fc w).2.log.LogLevel ≥ logger.Error) ∧
          ¬ (since begin > (fc w).2.log.SlowThreshold ∧ (fc w).2.log.SlowThreshold ≠ 0 ∧
            (fc w).2.log.LogLevel ≥ logger.Warn) ∧
          (fc w).2.log.LogLevel = logger.Info ∧ r.severity = slog.Severity.Info ∧
          r.attrs = [])) := by
    intro e hnf h
    simp only [logMessage_Warn, logMessage_Info] at h
    split_ifs at h with h1 h2
    · rw [List.mem_singleton] at h
      rw [h]
      exact ⟨rfl, Or.inr (Or.inl ⟨hnf, h1.1, h1.2.1, h1.2.2, rfl, rfl⟩)⟩
    · rw [List.mem_singleton] at h
      rw [h]
      exact ⟨rfl, Or.inr (Or.inr ⟨hnf, h1, h2, rfl, rfl⟩)⟩
    · simp at h
  rcases err with _ | text
  · simp only [Slog.Trace, if_neg hs] at hr
    exact hrest none (Or.inl rfl) hr
  · by_cases hge : (fc w).2.log.LogLevel ≥ logger.Error
    · simp only [Slog.Trace, if_neg hs, decide_eq_true hge, logMessage_Error,
        List.mem_singleton] at hr
      rw [hr]
      exact ⟨rfl, Or.inl ⟨text, rfl, hge, rfl, rfl⟩⟩
    · simp only [Slog.Trace, if_neg hs, decide_eq_false hge] at hr
      exact hrest (some text) (Or.inr hge) hr

/-- The first case of the `switch`: an error, and a level at or above `Error`
after the callback. -/
theorem Trace_records_error {σ : Type} (since : Time → Duration)
    (fmtMs : Duration → GoString) (ctx : Context) (begin : Time)
    (fc : World σ → (GoString × Int) × World σ) (text : GoString) (w : World σ)
    (hcall : ¬ w.log.LogLevel ≤ logger.Silent)
    (hlevel : (fc w).2.log.LogLevel ≥ logger.Error) :
    (Slog.Trace since fmtMs ctx begin fc (some text) w).records =
      [⟨ctx, slog.Severity.Error,
        traceMessage (fmtMs (since begin)) (fc w).1.2 (fc w).1.1, [(lit "error", text)]⟩] := by
  simp only [Slog.Trace, if_neg hcall, decide_eq_true hlevel, logMessage_Error]

/-- The second case of the `switch`: no error, a slow query and a level at or
above `Warn` after the callback. -/
theorem Trace_records_slow {σ : Type} (since : Time → Duration)
    (fmtMs : Duration → GoString) (ctx : Context) (begin : Time)
    (fc : World σ → (GoString × Int) × World σ) (w : World σ)
    (hcall : ¬ w.log.LogLevel ≤ logger.Silent)
    (hslow : since begin > (fc w).2.log.SlowThreshold ∧ (fc w).2.log.SlowThreshold ≠ 0 ∧
      (fc w).2.log.LogLevel ≥ logger.Warn) :
    (Slog.Trace since fmtMs ctx begin fc none w).records =
      [⟨ctx, slog.Severity.Warn,
        traceMessage (fmtMs (since begin)) (fc w).1.2 (fc w).1.1, []⟩] := by
  simp only [Slog.Trace, if_neg hcall, if_pos hslow, logMessage_Warn]

/-- The third case of the `switch`: no error, no slow query and level `Info`
after the callback. -/
theorem Trace_records_info {σ : Type} (since : Time → Duration)
    (fmtMs : Duration → GoString) (ctx : Context) (begin : Time)
    (fc : World σ → (GoString × Int) × World σ) (w : World σ)
    (hcall : ¬ w.log.LogLevel ≤ logger.Silent)
    (hslow : ¬ (since begin > (fc w).2.log.SlowThreshold ∧ (fc w).2.log.SlowThreshold ≠ 0 ∧
      (fc w).2.log.LogLevel ≥ logger.Warn))
    (hlevel : (fc w).2.log.LogLevel = logger.Info) :
    (Slog.Trace since fmtMs ctx begin fc none w).records =
      [⟨ctx, slog.Severity.Info,
        traceMessage (fmtMs (since begin)) (fc w).1.2 (fc w).1.1, []⟩] := by
  simp only [Slog.Trace, if_neg hcall, if_neg hslow, if_pos hlevel, logMessage_Info]

/-- A record is determined by its four fields. -/
theorem Record_eq (r : slog.Record) (ctx : Context) (sev : slog.Severity) (msg : GoString)
    (attrs : List (GoString × GoString)) (h1 : r.ctx = ctx) (h2 : r.severity = sev)
    (h3 : r.msg = msg) (h4 : r.attrs = attrs) : r = ⟨ctx, sev, msg, attrs⟩ := by
  cases r
  simp only at h1 h2 h3 h4
  rw [h1, h2, h3, h4]

/-- C12: a line a trace emits at `Error` severity carries exactly one attribute,
keyed `error`, whose value is the text of the error unchanged; a line emitted at
`Warn` or `Info` severity carries no attribute. -/
theorem Trace_attrs {σ : Type} (since : Time → Duration)
    (fmtMs : Duration → GoString) (ctx : Context) (begin : Time)
    (fc : World σ → (GoString × Int) × World σ) (err : Option GoString) (w : World σ)
    (r : slog.Record)
    (hr : r ∈ (Slog.Trace since fmtMs ctx begin fc err w).records) :
    (r.severity = slog.Severity.Error →
      ∃ text, err = some text ∧ r.attrs = [(lit "error", text)]) ∧
    (r.severity = slog.Severity.Warn ∨ r.severity = slog.Severity.Info → r.attrs = []) := by
  obtain ⟨-, -, h | h | h⟩ := Trace_mem_records since fmtMs ctx begin fc err w r hr
  · obtain ⟨text, he, -, hs, ha⟩ := h
    refine ⟨fun _ => ⟨text, he, ha⟩, ?_⟩
    rintro (h1 | h1) <;> rw [hs] at h1 <;> exact absurd h1 (by decide)
  · obtain ⟨-, -, -, -, hs, ha⟩ := h
    exact ⟨fun h1 => by rw [hs] at h1; exact absurd h1 (by decide), fun _ => ha⟩
  · obtain ⟨-, -, -, hs, ha⟩ := h
    exact ⟨fun h1 => by rw [hs] at h1; exact absurd h1 (by decide), fun _ => ha⟩

/-- Witness for C12: the line emitted for the error `database error` at level
`Error` carries the single attribute `error = database error`. -/
theorem Trace_attrs_witness :
    (⟨0, slog.Severity.Error, lit "[1.000ms] [rows:10] SELECT * FROM users",
        [(lit "error", lit "database error")]⟩ : slog.Record) ∈
      (Slog.Trace (fun _ => 1000000) (fun _ => lit "1.000") 0 0
        (fun (w : World Unit) => ((lit "SELECT * FROM users", 10), w))
        (some (lit "database error")) ⟨⟨logger.Error, 1000000000⟩, ()⟩).records ∧
    (slog.Severity.Error = slog.Severity.Error →
      ∃ text, some (lit "database error") = some text ∧
        [(lit "error", lit "database error")] = [(lit "error", text)]) ∧
    (slog.Severity.Error = slog.Severity.Warn ∨ slog.Severity.Error = slog.Severity.Info →
      [(lit "error", lit "database error")] = []) :=
  ⟨by decide,
    Trace_attrs (fun _ => 1000000) (fun _ => lit "1.000") 0 0
      (fun (w : World Unit) => ((lit "SELECT * FROM users", 10), w))
      (some (lit "database error")) ⟨⟨logger.Error, 1000000000⟩, ()⟩
      ⟨0, slog.Severity.Error, lit "[1.000ms] [rows:10] SELECT * FROM users",
        [(lit "error", lit "database error")]⟩ (by decide)⟩

/-- C13: with a slow threshold of zero, as the `switch` reads it after the
callback, a trace never emits a line at `Warn` severity, whatever the level,
elapsed time, callback result and error. -/
theorem Trace_zero_threshold_no_Warn {σ : Type} (since : Time → Duration)
    (fmtMs : Duration → GoString) (ctx : Context) (begin : Time)
    (fc : World σ → (GoString × Int) × World σ) (err : Option GoString) (w : World σ)
    (hthr : (fc w).2.log.SlowThreshold = 0) :
    ∀ r ∈ (Slog.Trace since fmtMs ctx begin fc err w).records,
      r.severity ≠ slog.Severity.Warn := by
  intro r hr
  obtain ⟨-, -, h | h | h⟩ := Trace_mem_records since fmtMs ctx begin fc err w r hr
  · obtain ⟨text, -, -, hs, -⟩ := h
    rw [hs]; decide
  · exact absurd hthr h.2.2.1
  · rw [h.2.2.2.1]; decide

/-- Witness for C13: at level `Info` with threshold zero and a callback that
leaves the logger alone, a query that took an hour is logged once, at `Info`
severity. -/
theorem Trace_zero_threshold_no_Warn_witness :
    ((fun (w : World Unit) => ((lit "SELECT 1", (1 : Int)), w))
      ⟨⟨logger.Info, 0⟩, ()⟩).2.log.SlowThreshold = 0 ∧
    (Slog.Trace (fun _ => 3600000000000) (fun _ => lit "3600000.000") 0 0
        (fun (w : World Unit) => ((lit "SELECT 1", 1), w)) none
        ⟨⟨logger.Info, 0⟩, ()⟩).records =
      [⟨0, slog.Severity.Info, lit "[3600000.000ms] [rows:1] SELECT 1", []⟩] ∧
    ∀ r ∈ (Slog.Trace (fun _ => 3600000000000) (fun _ => lit "3600000.000") 0 0
        (fun (w : World Unit) => ((lit "SELECT 1", 1), w)) none
        ⟨⟨logger.Info, 0⟩, ()⟩).records,
      r.severity ≠ slog.Severity.Warn :=
  ⟨rfl, by decide,
    Trace_zero_threshold_no_Warn (fun _ => 3600000000000) (fun _ => lit "3600000.000") 0 0
      (fun (w : World Unit) => ((lit "SELECT 1", 1), w)) none ⟨⟨logger.Info, 0⟩, ()⟩ rfl⟩

/-- C19: a trace never emits above the configured verbosity: when a line at
severity `S` is emitted, the level the `switch` read, which is the level of the
logger after the callback, is at or above the level of `S` (and the level at
the call was above `Silent`). -/
theorem Trace_severity_le_level {σ : Type} (since : Time → Duration)
    (fmtMs : Duration → GoString) (ctx : Context) (begin : Time)
    (fc : World σ → (GoString × Int) × World σ) (err : Option GoString) (w : World σ)
    (r : slog.Record)
    (hr : r ∈ (Slog.Trace since fmtMs ctx begin fc err w).records) :
    (fc w).2.log.LogLevel ≥ levelOf r.severity ∧ logger.Silent < w.log.LogLevel := by
  obtain ⟨hc, -, h | h | h⟩ := Trace_mem_records since fmtMs ctx begin fc err w r hr
  · obtain ⟨text, -, hl, hs, -⟩ := h
    rw [hs]; exact ⟨hl, not_le.mp hc⟩
  · obtain ⟨-, -, -, hl, hs, -⟩ := h
    rw [hs]; exact ⟨hl, not_le.mp hc⟩
  · obtain ⟨-, -, hl, hs, -⟩ := h
    rw [hs]; exact ⟨le_of_eq hl.symm, not_le.mp hc⟩

/-- Witness for C19: a callback that raises the level from `Error` to `Info`;
the `Info` line that follows is at the level the `switch` read. -/
theorem Trace_severity_le_level_witness :
    (⟨0, slog.Severity.Info, lit "[1.000ms] [rows:1] SELECT 1", []⟩ : slog.Record) ∈
      (Slog.Trace (fun _ => 1000000) (fun _ => lit "1.000") 0 0
        (fun (w : World Unit) =>
          ((lit "SELECT 1", 1), { w with log := { w.log with LogLevel := logger.Info } }))
        none ⟨⟨logger.Error, 0⟩, ()⟩).records ∧
    ((fun (w : World Unit) =>
        ((lit "SELECT 1", (1 : Int)), { w with log := { w.log with LogLevel := logger.Info } }))
      ⟨⟨logger.Error, 0⟩, ()⟩).2.log.LogLevel ≥ levelOf slog.Severity.Info ∧
    logger.Silent < (⟨⟨logger.Error, 0⟩, ()⟩ : World Unit).log.LogLevel :=
  ⟨by decide,
    Trace_severity_le_level (fun _ => 1000000) (fun _ => lit "1.000") 0 0
      (fun (w : World Unit) =>
        ((lit "SELECT 1", 1), { w with log := { w.log with LogLevel := logger.Info } }))
      none ⟨⟨logger.Error, 0⟩, ()⟩
      ⟨0, slog.Severity.Info, lit "[1.000ms] [rows:1] SELECT 1", []⟩ (by decide)⟩

/-- C20: a logger whose level is below `Silent`, such as the zero value of the
level type, behaves as a silent one: `Info`, `Warn` and `Error` emit nothing, and
`Trace` emits nothing, does not call the callback and leaves the memory, the
logger included, alone. -/
theorem below_Silent_is_silent {σ α : Type} (Sprintf : GoString → List α → GoString)
    (since : Time → Duration) (fmtMs : Duration → GoString) (ctx : Context)
    (msg : GoString) (data : List α) (begin : Time)
    (fc : World σ → (GoString × Int) × World σ)
    (err : Option GoString) (w : World σ) (hlevel : w.log.LogLevel < logger.Silent) :
    Slog.Info Sprintf w.log ctx msg data = [] ∧
    Slog.Warn Sprintf w.log ctx msg data = [] ∧
    Slog.Error Sprintf w.log ctx msg data = [] ∧
    (Slog.Trace since fmtMs ctx begin fc err w).records = [] ∧
    (Slog.Trace since fmtMs ctx begin fc err w).fcCalls = 0 ∧
    (Slog.Trace since fmtMs ctx begin fc err w).state = w := by
  have h1 : ¬ w.log.LogLevel ≥ logger.Info :=
    not_le.mpr (lt_trans hlevel (by decide : logger.Silent < logger.Info))
  have h2 : ¬ w.log.LogLevel ≥ logger.Warn :=
    not_le.mpr (lt_trans hlevel (by decide : logger.Silent < logger.Warn))
  have h3 : ¬ w.log.LogLevel ≥ logger.Error :=
    not_le.mpr (lt_trans hlevel (by decide : logger.Silent < logger.Error))
  have h4 : w.log.LogLevel ≤ logger.Silent := le_of_lt hlevel
  refine ⟨?_, ?_, ?_, ?_, ?_, ?_⟩
  · simp only [Slog.Info, if_neg h1]
  · simp only [Slog.Warn, if_neg h2]
  · simp only [Slog.Error, if_neg h3]
  · simp only [Slog.Trace, if_pos h4]
  · simp only [Slog.Trace, if_pos h4]
  · simp only [Slog.Trace, if_pos h4]

/-- Witness for C20: the zero-valued logger `Slog{}`, a callback that counts its
calls and would raise the level, an error and a slow query. -/
theorem below_Silent_is_silent_witness :
    (⟨⟨0, 0⟩, 7⟩ : World Nat).log.LogLevel < logger.Silent ∧
    Slog.Info (fun m (_ : List Unit) => m) (⟨⟨0, 0⟩, 7⟩ : World Nat).log 0
      (lit "test message") [()] = [] ∧
    Slog.Warn (fun m (_ : List Unit) => m) (⟨⟨0, 0⟩, 7⟩ : World Nat).log 0
      (lit "test message") [()] = [] ∧
    Slog.Error (fun m (_ : List Unit) => m) (⟨⟨0, 0⟩, 7⟩ : World Nat).log 0
      (lit "test message") [()] = [] ∧
    (Slog.Trace (fun _ => 1000000000) (fun _ => lit "1000.000") 0 0
        (fun (w : World Nat) => ((lit "SELECT 1", 1), ⟨⟨logger.Info, 1⟩, w.user + 1⟩))
        (some (lit "boom")) ⟨⟨0, 0⟩, 7⟩).records = [] ∧
    (Slog.Trace (fun _ => 1000000000) (fun _ => lit "1000.000") 0 0
        (fun (w : World Nat) => ((lit "SELECT 1", 1), ⟨⟨logger.Info, 1⟩, w.user + 1⟩))
        (some (lit "boom")) ⟨⟨0, 0⟩, 7⟩).fcCalls = 0 ∧
    (Slog.Trace (fun _ => 1000000000) (fun _ => lit "1000.000") 0 0
        (fun (w : World Nat) => ((lit "SELECT 1", 1), ⟨⟨logger.Info, 1⟩, w.user + 1⟩))
        (some (lit "boom")) ⟨⟨0, 0⟩, 7⟩).state = ⟨⟨0, 0⟩, 7⟩ :=
  ⟨by decide,
    below_Silent_is_silent (fun m (_ : List Unit) => m) (fun _ => 1000000000)
      (fun _ => lit "1000.000") 0 (lit "test message") [()] 0
      (fun (w : World Nat) => ((lit "SELECT 1", 1), ⟨⟨logger.Info, 1⟩, w.user + 1⟩))
      (some (lit "boom")) ⟨⟨0, 0⟩, 7⟩ (by decide)⟩

/-- C18: emission by `Trace` is monotone in the level over the four levels
`Silent < Error < Warn < Info`.  Take two calls with the same elapsed time and
error, in which the callback returns the same result and leaves the same slow
threshold, and whose levels are `L ≤ L'`, at the call as well as when the
`switch` reads them (one level each for a callback that leaves the logger
alone), with `L'` one of the four levels.  Then a line emitted by the first call
is emitted by the second, with the same severity, message and attributes. -/
theorem Trace_monotone_in_level {σ : Type} (since : Time → Duration)
    (fmtMs : Duration → GoString) (ctx : Context) (begin : Time)
    (fc : World σ → (GoString × Int) × World σ) (err : Option GoString)
    (w w' : World σ) (r : slog.Record)
    (hres : (fc w').1 = (fc w).1)
    (hthr : (fc w').2.log.SlowThreshold = (fc w).2.log.SlowThreshold)
    (hL' : (fc w').2.log.LogLevel = logger.Silent ∨ (fc w').2.log.LogLevel = logger.Error ∨
      (fc w').2.log.LogLevel = logger.Warn ∨ (fc w').2.log.LogLevel = logger.Info)
    (hcall : w.log.LogLevel ≤ w'.log.LogLevel)
    (hle : (fc w).2.log.LogLevel ≤ (fc w').2.log.LogLevel)
    (hr : r ∈ (Slog.Trace since fmtMs ctx begin fc err w).records) :
    r ∈ (Slog.Trace since fmtMs ctx begin fc err w').records := by
  have hmsg := Trace_msg since fmtMs ctx begin fc err w r hr
  rw [← hres] at hmsg
  obtain ⟨hc, hctx, h | h | h⟩ := Trace_mem_records since fmtMs ctx begin fc err w r hr
  all_goals
    have hc' : ¬ w'.log.LogLevel ≤ logger.Silent := fun h' => hc (le_trans hcall h')
  · obtain ⟨text, he, hl, hs, ha⟩ := h
    subst he
    rw [Trace_records_error since fmtMs ctx begin fc text w' hc' (le_trans hl hle),
      List.mem_singleton]
    exact Record_eq r _ _ _ _ hctx hs hmsg ha
  · obtain ⟨hnf, h1, h2, h3, hs, ha⟩ := h
    have he : err = none := by
      rcases hnf with hnf | hnf
      · exact hnf
      · exact absurd (le_trans (by decide : logger.Error ≤ logger.Warn) h3) hnf
    subst he
    rw [← hthr] at h1 h2
    rw [Trace_records_slow since fmtMs ctx begin fc w' hc' ⟨h1, h2, le_trans h3 hle⟩,
      List.mem_singleton]
    exact Record_eq r _ _ _ _ hctx hs hmsg ha
  · obtain ⟨hnf, hns, hl, hs, ha⟩ := h
    have he : err = none := by
      rcases hnf with hnf | hnf
      · exact hnf
      · rw [hl] at hnf
        exact absurd (by decide : logger.Info ≥ logger.Error) hnf
    subst he
    have hl' : (fc w').2.log.LogLevel = logger.Info := by
      rw [hl] at hle
      rcases hL' with h | h | h | h
      · rw [h] at hle; exact absurd hle (by decide)
      · rw [h] at hle; exact absurd hle (by decide)
      · rw [h] at hle; exact absurd hle (by decide)
      · exact h
    have hns' : ¬ (since begin > (fc w').2.log.SlowThreshold ∧
        (fc w').2.log.SlowThreshold ≠ 0 ∧ (fc w').2.log.LogLevel ≥ logger.Warn) := by
      rintro ⟨a1, a2, -⟩
      rw [hthr] at a1 a2
      exact hns ⟨a1, a2, by rw [hl]; decide⟩
    rw [Trace_records_info since fmtMs ctx begin fc w' hc' hns' hl', List.mem_singleton]
    exact Record_eq r _ _ _ _ hctx hs hmsg ha

/-- Witness for C18: the `Warn` line of a slow query at level `Warn` is also
emitted at level `Info`. -/
theorem Trace_monotone_in_level_witness :
    (⟨0, slog.Severity.Warn, lit "[1000.000ms] [rows:10] SELECT * FROM users", []⟩ :
        slog.Record) ∈
      (Slog.Trace (fun _ => 1000000000) (fun _ => lit "1000.000") 0 0
        (fun (w : World Unit) => ((lit "SELECT * FROM users", 10), w)) none
        ⟨⟨logger.Warn, 1000000⟩, ()⟩).records ∧
    (⟨0, slog.Severity.Warn, lit "[1000.000ms] [rows:10] SELECT * FROM users", []⟩ :
        slog.Record) ∈
      (Slog.Trace (fun _ => 1000000000) (fun _ => lit "1000.000") 0 0
        (fun (w : World Unit) => ((lit "SELECT * FROM users", 10), w)) none
        ⟨⟨logger.Info, 1000000⟩, ()⟩).records :=
  ⟨by decide,
    Trace_monotone_in_level (fun _ => 1000000000) (fun _ => lit "1000.000") 0 0
      (fun (w : World Unit) => ((lit "SELECT * FROM users", 10), w)) none
      ⟨⟨logger.Warn, 1000000⟩, ()⟩ ⟨⟨logger.Info, 1000000⟩, ()⟩
      ⟨0, slog.Severity.Warn, lit "[1000.000ms] [rows:10] SELECT * FROM users", []⟩
      rfl rfl (by decide) (by decide) (by decide) (by decide)⟩

/-! ## Further properties of `formatSQL` -/

namespace strings

/-- The scanning loop cuts the runes at the separators and keeps the non-empty
pieces; a field already being read is continued by the first piece. -/
theorem fieldsLoop_eq_splitOnP (f : Nat → Bool) (X : List (Nat × GoString)) :
    fieldsLoop f X none =
      ((X.splitOnP (fun c => f c.1)).filter (fun g => !g.isEmpty)).map bytesOf ∧
    ∀ cur : GoString, ∃ g0 rest, X.splitOnP (fun c => f c.1) = g0 :: rest ∧
      fieldsLoop f X (some cur) =
        (cur ++ bytesOf g0) :: (rest.filter (fun g => !g.isEmpty)).map bytesOf := by
  induction X with
  | nil =>
    refine ⟨by simp [fieldsLoop], fun cur => ⟨[], [], by simp, ?_⟩⟩
    simp [fieldsLoop, bytesOf]
  | cons c X ih =>
    obtain ⟨r, bs⟩ := c
    obtain ⟨ih1, ih2⟩ := ih
    rw [List.splitOnP_cons]
    by_cases hp : f r = true
    · simp only [hp, if_true]
      refine ⟨?_, fun cur => ⟨[], _, rfl, ?_⟩⟩
      · simp only [fieldsLoop, hp, if_true, ih1]
        simp
      · simp only [fieldsLoop, hp, if_true, ih1]
        simp [bytesOf]
    · have hp1 : f r = false := by simpa using hp
      simp only [hp1, Bool.false_eq_true, if_false]
      constructor
      · obtain ⟨g0, rest, hg, hl⟩ := ih2 bs
        simp only [fieldsLoop, hp1, Bool.false_eq_true, if_false, hl, hg, List.modifyHead_cons]
        simp [bytesOf]
      · intro cur
        obtain ⟨g0, rest, hg, hl⟩ := ih2 (cur ++ bs)
        refine ⟨(r, bs) :: g0, rest, by rw [hg, List.modifyHead_cons], ?_⟩
        simp only [fieldsLoop, hp1, Bool.false_eq_true, if_false, hl]
        simp [bytesOf]

/-- The words of a string are what `strings.Fields` returns. -/
theorem words_eq_Fields (s : GoString) : words s = Fields s := by
  rw [Fields_eq]
  unfold words FieldsFunc
  exact ((fieldsLoop_eq_splitOnP unicode.IsSpace (rangeString s)).1).symm

/-- The scanning loop returns nothing when every rune is a separator. -/
theorem fieldsLoop_all_sep (f : Nat → Bool) (X : List (Nat × GoString))
    (h : ∀ c ∈ X, f c.1 = true) : fieldsLoop f X none = [] := by
  induction X with
  | nil => rfl
  | cons c X ih =>
    obtain ⟨r, bs⟩ := c
    have hc : f r = true := h (r, bs) (List.mem_cons_self _ _)
    simp only [fieldsLoop, hc, if_true]
    exact ih (fun c hc => h c (List.mem_cons_of_mem _ hc))

end strings

/-- C14: `formatSQL` changes white space only: the words of its result are the
words of its argument, in the same order; the multi-line test query has the
words `SELECT`, `*`, `FROM`, `users`, `WHERE`, `id`, `=`, `1`. -/
theorem formatSQL_words :
    (∀ s : GoString, words (formatSQL s) = words s) ∧
    words (lit "\n\t\tSELECT *\n\t\tFROM users\n\t\tWHERE id = 1\n\t") =
      [lit "SELECT", lit "*", lit "FROM", lit "users", lit "WHERE", lit "id", lit "=",
        lit "1"] ∧
    words (formatSQL (lit "\n\t\tSELECT *\n\t\tFROM users\n\t\tWHERE id = 1\n\t")) =
      [lit "SELECT", lit "*", lit "FROM", lit "users", lit "WHERE", lit "id", lit "=",
        lit "1"] := by
  refine ⟨fun s => ?_, by decide, by decide⟩
  rw [strings.words_eq_Fields, strings.words_eq_Fields, formatSQL_eq,
    strings.Fields_Join_Fields]

/-- C15: a string that is already normalised, that is, words joined by single
spaces, is returned unchanged by `formatSQL`. -/
theorem formatSQL_fixes_normalised (ws : List GoString)
    (hws : ∀ w ∈ ws, strings.GoodField w) :
    formatSQL (strings.Join ws (lit " ")) = strings.Join ws (lit " ") := by
  rw [formatSQL_eq, strings.lit_space, strings.Fields_eq, strings.FieldsFunc_Join ws hws]

/-- Witness for C15: `SELECT * FROM users`. -/
theorem formatSQL_fixes_normalised_witness :
    (∀ w ∈ [lit "SELECT", lit "*", lit "FROM", lit "users"], strings.GoodField w) ∧
    strings.Join [lit "SELECT", lit "*", lit "FROM", lit "users"] (lit " ") =
      lit "SELECT * FROM users" ∧
    formatSQL (strings.Join [lit "SELECT", lit "*", lit "FROM", lit "users"] (lit " ")) =
      strings.Join [lit "SELECT", lit "*", lit "FROM", lit "users"] (lit " ") :=
  ⟨by decide, by decide,
    formatSQL_fixes_normalised [lit "SELECT", lit "*", lit "FROM", lit "users"] (by decide)⟩

/-- C16: for a string that is empty or consists of white space runes only,
`formatSQL` returns the empty string, so the trace message ends with the
row-count bracket followed by one space. -/
theorem formatSQL_blank (s : GoString)
    (hs : ∀ c ∈ rangeString s, unicode.IsSpace c.1 = true) :
    formatSQL s = [] ∧
    ∀ (ms : GoString) (rows : Int),
      traceMessage ms rows s = lit "[" ++ ms ++ lit "ms] [rows:" ++ rowsStr rows ++ lit "] " := by
  have h : formatSQL s = [] := by
    rw [formatSQL_eq, strings.Fields_eq]
    unfold strings.FieldsFunc
    rw [strings.fieldsLoop_all_sep _ _ hs]
    rfl
  refine ⟨h, fun ms rows => ?_⟩
  unfold traceMessage
  rw [h, List.append_nil]

/-- Witness for C16: a string of a space, a newline, a tab and a no-break space. -/
theorem formatSQL_blank_witness :
    (∀ c ∈ rangeString [0x20, 0x0A, 0x09, 0xC2, 0xA0], unicode.IsSpace c.1 = true) ∧
    formatSQL [0x20, 0x0A, 0x09, 0xC2, 0xA0] = [] ∧
    ∀ (ms : GoString) (rows : Int),
      traceMessage ms rows [0x20, 0x0A, 0x09, 0xC2, 0xA0] =
        lit "[" ++ ms ++ lit "ms] [rows:" ++ rowsStr rows ++ lit "] " :=
  ⟨by decide, formatSQL_blank [0x20, 0x0A, 0x09, 0xC2, 0xA0] (by decide)⟩

/-- C17: the newline replacement in `formatSQL` is redundant: the result is that
of the same function without the `strings.ReplaceAll` step. -/
theorem formatSQL_replace_redundant (s : GoString) : formatSQL s = formatSQLNoReplace s := by
  unfold formatSQL formatSQLNoReplace
  simp only [strings.lit_space, strings.lit_newline, strings.Fields_ReplaceAll_newline]

/-! ## The elapsed time in the message -/

namespace Float64

theorem log2Loop_spec (fuel : Nat) : ∀ n : Nat, 0 < n → n ≤ fuel →
    2 ^ log2Loop fuel n ≤ n ∧ n < 2 ^ (log2Loop fuel n + 1) := by
  induction fuel with
  | zero => intro n h1 h2; omega
  | succ fuel ih =>
    intro n h1 h2
    by_cases h : n < 2
    · simp only [log2Loop, if_pos h]
      omega
    · simp only [log2Loop, if_neg h]
      obtain ⟨ih1, ih2⟩ := ih (n / 2) (by omega) (by omega)
      rw [pow_succ] at ih2 ⊢
      rw [pow_succ (2 : Nat) (log2Loop fuel (n / 2) + 1)]
      constructor <;> omega

/-- For a positive `n`, `log2 n` is the exponent of the highest power of two
not above `n`. -/
theorem log2_spec (n : Nat) (h : 0 < n) : 2 ^ log2 n ≤ n ∧ n < 2 ^ (log2 n + 1) :=
  log2Loop_spec n n h (le_refl n)

theorem log2_unique (n k : Nat) (h1 : 2 ^ k ≤ n) (h2 : n < 2 ^ (k + 1)) : log2 n = k := by
  have hpos : 0 < n := lt_of_lt_of_le (Nat.two_pow_pos k) h1
  obtain ⟨h3, h4⟩ := log2_spec n hpos
  have a1 : log2 n < k + 1 :=
    (Nat.pow_lt_pow_iff_right (by omega : 1 < 2)).mp (lt_of_le_of_lt h3 h2)
  have a2 : k < log2 n + 1 :=
    (Nat.pow_lt_pow_iff_right (by omega : 1 < 2)).mp (lt_of_le_of_lt h1 h4)
  omega

theorem roundHalfEven_one (n : Nat) : roundHalfEven n 1 = n := by
  unfold roundHalfEven
  rw [Nat.mod_one, if_pos (by omega), Nat.div_one]

/-- Rounding to the nearest integer moves a fraction by at most one half. -/
theorem roundHalfEven_bounds (n d : Nat) (hd : 0 < d) :
    2 * (roundHalfEven n d * d) ≤ 2 * n + d ∧ 2 * n ≤ 2 * (roundHalfEven n d * d) + d := by
  have h1 := Nat.div_add_mod n d
  have h2 := Nat.mod_lt n hd
  have e1 : n / d * d = d * (n / d) := Nat.mul_comm _ _
  have e2 : (n / d + 1) * d = d * (n / d) + d := by ring
  unfold roundHalfEven
  split_ifs <;> simp only [e1, e2] <;> constructor <;> omega

theorem scale_of_neg (n d k : Nat) : scale n d (-(k : Int)) = (n * 2 ^ k, d) := by
  unfold scale
  rw [if_pos (by omega)]
  have : (- -(k : Int)).toNat = k := by omega
  rw [this]

theorem scale_of_pos (n d k : Nat) (hk : 0 < k) : scale n d (k : Int) = (n, d * 2 ^ k) := by
  unfold scale
  rw [if_neg (by omega)]
  rfl

/-- Rounding to the nearest `float64` of a fraction below `2^53`: the result is
`m * 2^(-k)` where `(n / d) * 2^k` is at least `2^52` and `m` is that number
rounded to an integer. -/
theorem nearest_spec (n d : Nat) (hn : 0 < n) (hd : 0 < d) (h : log2 n ≤ log2 d + 52) :
    ∃ k : Nat, (nearest n d).2 = -(k : Int) ∧ (nearest n d).1 = roundHalfEven (n * 2 ^ k) d ∧
      2 ^ 52 * d ≤ n * 2 ^ k := by
  obtain ⟨hn1, -⟩ := log2_spec n hn
  obtain ⟨-, hd2⟩ := log2_spec d hd
  have he0 : (log2 n : Int) - (log2 d : Int) - 52 = -((log2 d + 52 - log2 n : Nat) : Int) := by
    omega
  by_cases hc : 2 ^ 52 * d ≤ n * 2 ^ (log2 d + 52 - log2 n)
  · refine ⟨log2 d + 52 - log2 n, ?_, ?_, hc⟩
    · simp only [nearest, he0, scale_of_neg, if_pos hc]
    · simp only [nearest, he0, scale_of_neg, if_pos hc]
  · have he1 : -((log2 d + 52 - log2 n : Nat) : Int) - 1 =
        -((log2 d + 52 - log2 n + 1 : Nat) : Int) := by omega
    refine ⟨log2 d + 52 - log2 n + 1, ?_, ?_, ?_⟩
    · simp only [nearest, he0, scale_of_neg, if_neg hc, he1]
    · simp only [nearest, he0, scale_of_neg, if_neg hc, he1]
    · have e1 : 2 ^ log2 n * 2 ^ (log2 d + 52 - log2 n + 1) = 2 ^ 52 * 2 ^ (log2 d + 1) := by
        rw [← pow_add, ← pow_add]
        congr 1
        omega
      calc 2 ^ 52 * d ≤ 2 ^ 52 * 2 ^ (log2 d + 1) :=
            Nat.mul_le_mul_left _ (le_of_lt hd2)
        _ = 2 ^ log2 n * 2 ^ (log2 d + 52 - log2 n + 1) := e1.symm
        _ ≤ n * 2 ^ (log2 d + 52 - log2 n + 1) := Nat.mul_le_mul_right _ hn1

theorem scale_zero (n d : Nat) : scale n d 0 = (n * 2 ^ 0, d) := by
  unfold scale
  rw [if_pos (le_refl _)]
  rfl

/-- The scaling of a quotient below `2^53 / 10^6` to a significand of 53 bits
multiplies it by more than 500000. -/
theorem scaling_large (a N D K : Nat) (hD : 0 < D) (ha : a < 2 ^ 53)
    (r1 : N * 1000000 = a * D) (r2 : 2 ^ 52 * D ≤ N * K) : 500000 < K := by
  by_contra hc
  have hc1 : K ≤ 500000 := by omega
  have h1 : N * K ≤ N * 500000 := Nat.mul_le_mul_left N hc1
  have h2 : a * D < 2 ^ 53 * D := Nat.mul_lt_mul_of_pos_right ha hD
  norm_num at r2 h2
  linarith

/-- The two roundings, of the quotient and of its thousandths, together move the
number of thousandths by at most one half. -/
theorem thousandths_arith (a N D K m t : Nat) (hD : 0 < D) (ha : a < 2 ^ 53)
    (r1 : N * 1000000 = a * D) (r2 : 2 ^ 52 * D ≤ N * K)
    (r3a : 2 * (m * D) ≤ 2 * (N * K) + D) (r3b : 2 * (N * K) ≤ 2 * (m * D) + D)
    (r4a : 2 * (t * K) ≤ 2 * (m * 1000) + K) (r4b : 2 * (m * 1000) ≤ 2 * (t * K) + K) :
    1000 * t ≤ a + 500 ∧ a ≤ 1000 * t + 500 := by
  have hK : 500000 < K := scaling_large a N D K hD ha r1 r2
  have hKD : 500000 * D < K * D := Nat.mul_lt_mul_of_pos_right hK hD
  have r1K : N * 1000000 * K = a * D * K := by rw [r1]
  have A1 : 2 * (t * K) * (500 * D) ≤ (2 * (m * 1000) + K) * (500 * D) :=
    Nat.mul_le_mul_right _ r4a
  have A2 : (2 * (m * 1000)) * (500 * D) ≤ (2 * (t * K) + K) * (500 * D) :=
    Nat.mul_le_mul_right _ r4b
  constructor
  · by_contra hc
    have hc1 : a + 501 ≤ 1000 * t := by omega
    have hc2 : (a + 501) * (K * D) ≤ 1000 * t * (K * D) := Nat.mul_le_mul_right _ hc1
    nlinarith
  · by_contra hc
    have hc1 : 1000 * t + 501 ≤ a := by omega
    have hc2 : (1000 * t + 501) * (K * D) ≤ a * (K * D) := Nat.mul_le_mul_right _ hc1
    nlinarith

/-- The sign of `float64(n) / c` is the sign of `n`. -/
theorem neg_divConst_ofInt64 (n : Int) (c : Nat) :
    ((ofInt64 n).divConst c).neg = decide (n < 0) := by
  unfold divConst ofInt64
  by_cases h0 : n = 0
  · subst h0
    rfl
  · simp only [if_neg h0]
    split_ifs <;> rfl

/-- For fewer than `2^53` nanoseconds (some 104 days), the number of thousandths
that `%.3f` prints for `float64(ns) / 1e6` is within one half of the exact
`|ns| / 1000`: the text is the elapsed time in milliseconds rounded to the
nearest thousandth. -/
theorem thousandths_accurate (ns : Int) (h : ns.natAbs < 2 ^ 53) :
    1000 * ((ofInt64 ns).divConst 1000000).thousandths ≤ ns.natAbs + 500 ∧
      ns.natAbs ≤ 1000 * ((ofInt64 ns).divConst 1000000).thousandths + 500 := by
  by_cases h0 : ns = 0
  · subst h0
    decide
  have ha : 0 < ns.natAbs := Int.natAbs_pos.mpr h0
  have hl1 : log2 1 = 0 := rfl
  have hla : log2 ns.natAbs ≤ log2 1 + 52 := by
    obtain ⟨h1, -⟩ := log2_spec _ ha
    have : log2 ns.natAbs < 53 :=
      (Nat.pow_lt_pow_iff_right (by omega : 1 < 2)).mp (lt_of_le_of_lt h1 h)
    omega
  obtain ⟨k1, e1, m1, -⟩ := nearest_spec ns.natAbs 1 ha (by omega) hla
  rw [roundHalfEven_one] at m1
  have hx : ofInt64 ns = ⟨decide (ns < 0), ns.natAbs * 2 ^ k1, -(k1 : Int)⟩ := by
    unfold ofInt64
    rw [if_neg h0, m1, e1]
  have hxm : ns.natAbs * 2 ^ k1 ≠ 0 := (Nat.mul_pos ha (Nat.two_pow_pos k1)).ne'
  obtain ⟨N, D, hs, hN, hD, hr⟩ : ∃ N D,
      scale (ns.natAbs * 2 ^ k1) 1000000 (-(-(k1 : Int))) = (N, D) ∧ 0 < N ∧ 0 < D ∧
        N * 1000000 = ns.natAbs * D := by
    rw [neg_neg]
    rcases Nat.eq_zero_or_pos k1 with hk | hk
    · subst hk
      refine ⟨ns.natAbs * 2 ^ 0 * 2 ^ 0, 1000000, scale_zero _ _,
        Nat.mul_pos (Nat.mul_pos ha (Nat.two_pow_pos 0)) (Nat.two_pow_pos 0), by omega, ?_⟩
      simp
    · refine ⟨ns.natAbs * 2 ^ k1, 1000000 * 2 ^ k1, scale_of_pos _ _ k1 hk,
        Nat.mul_pos ha (Nat.two_pow_pos k1), Nat.mul_pos (by omega) (Nat.two_pow_pos k1), ?_⟩
      ring
  have hlN : log2 N ≤ log2 D + 52 := by
    obtain ⟨hn1, -⟩ := log2_spec N hN
    obtain ⟨-, hd2⟩ := log2_spec D hD
    have h2 : ns.natAbs * D < 2 ^ 53 * D := Nat.mul_lt_mul_of_pos_right h hD
    have h3 : N < 2 ^ 34 * D := by
      norm_num at h2 ⊢
      omega
    have h4 : 2 ^ 34 * D < 2 ^ 34 * 2 ^ (log2 D + 1) :=
      Nat.mul_lt_mul_of_pos_left hd2 (Nat.two_pow_pos 34)
    rw [← pow_add] at h4
    have h5 : log2 N < 34 + (log2 D + 1) :=
      (Nat.pow_lt_pow_iff_right (by omega : 1 < 2)).mp
        (lt_of_le_of_lt hn1 (lt_trans h3 h4))
    omega
  obtain ⟨k2, e2, m2, hnorm⟩ := nearest_spec N D hN hD hlN
  have hK : 500000 < 2 ^ k2 := scaling_large ns.natAbs N D (2 ^ k2) hD h hr hnorm
  have hk2 : 0 < k2 := by
    rcases Nat.eq_zero_or_pos k2 with hk | hk
    · subst hk
      simp at hK
    · exact hk
  have hdiv : (ofInt64 ns).divConst 1000000 =
      ⟨decide (ns < 0), roundHalfEven (N * 2 ^ k2) D, -(k2 : Int)⟩ := by
    unfold divConst
    rw [hx]
    simp only [if_neg hxm, hs, m2, e2]
  have hth : ((ofInt64 ns).divConst 1000000).thousandths =
      roundHalfEven (roundHalfEven (N * 2 ^ k2) D * 1000) (1 * 2 ^ k2) := by
    rw [hdiv]
    unfold thousandths
    simp only [neg_neg, scale_of_pos _ _ k2 hk2]
  rw [hth]
  obtain ⟨r3a, r3b⟩ := roundHalfEven_bounds (N * 2 ^ k2) D hD
  obtain ⟨r4a, r4b⟩ := roundHalfEven_bounds (roundHalfEven (N * 2 ^ k2) D * 1000) (1 * 2 ^ k2)
    (Nat.mul_pos (by omega) (Nat.two_pow_pos k2))
  rw [Nat.one_mul] at r4a r4b ⊢
  exact thousandths_arith ns.natAbs N D (2 ^ k2) _ _ hD h hr hnorm r3a r3b r4a r4b

end Float64

namespace fmt

/-- The text of `%.3f`: an optional minus sign, the decimal rendering of the
whole part, a point and the three digits of the thousandths. -/
theorem Sprintf_3f_shape (x : Float64) :
    ∃ whole : GoString, IsDecimal whole ((x.thousandths / 1000 : Nat) : Int) ∧
      Sprintf_3f x = (if x.neg then lit "-" else []) ++ whole ++ lit "." ++
        [0x30 + x.thousandths / 100 % 10, 0x30 + x.thousandths / 10 % 10,
          0x30 + x.thousandths % 10] := by
  obtain ⟨ds, h1, h2, h3, h4, h5⟩ :=
    fmtDigits_spec (x.thousandths / 1000 + 1) (x.thousandths / 1000) [] (Nat.lt_succ_self _)
  rw [List.append_nil] at h1
  refine ⟨ds, ⟨ds, h2, h3, h4, ?_, ?_⟩, ?_⟩
  · rw [h5, Int.natAbs_ofNat]
  · rw [if_neg (by omega)]
  · unfold Sprintf_3f
    rw [h1]
    have e1 : lit "-" = [0x2D] := rfl
    have e2 : lit "." = [0x2E] := rfl
    rw [e1, e2]
    simp only [List.append_assoc, List.singleton_append]

end fmt

/-- The text of the elapsed time: a minus sign for a negative duration, then a
number with exactly three decimals, which for fewer than `2^53` nanoseconds is
the elapsed time in milliseconds rounded to the nearest thousandth. -/
theorem elapsedMsText_spec (ns : Duration) :
    ∃ (t : Nat) (whole : GoString),
      elapsedMsText ns = (if ns < 0 then lit "-" else []) ++ whole ++ lit "." ++
        [0x30 + t / 100 % 10, 0x30 + t / 10 % 10, 0x30 + t % 10] ∧
      IsDecimal whole ((t / 1000 : Nat) : Int) ∧
      (ns.natAbs < 2 ^ 53 → 1000 * t ≤ ns.natAbs + 500 ∧ ns.natAbs ≤ 1000 * t + 500) := by
  obtain ⟨whole, h1, h2⟩ := fmt.Sprintf_3f_shape ((Float64.ofInt64 ns).divConst 1000000)
  refine ⟨((Float64.ofInt64 ns).divConst 1000000).thousandths, whole, ?_, h1,
    Float64.thousandths_accurate ns⟩
  unfold elapsedMsText
  rw [h2, Float64.neg_divConst_ofInt64]
  by_cases hn : ns < 0
  · simp only [decide_eq_true hn, if_true, if_pos hn]
  · simp only [decide_eq_false hn, Bool.false_eq_true, if_false, if_neg hn]

/-- C11: the message of every line a trace emits, whatever its severity, is
`"[" + T + "ms] [rows:" + R + "] " + formatSQL(sql)`, where `sql` is the text
the callback returned, `R` is the row-count rendering and `T` is the `%.3f`
rendering of `float64(elapsed.Nanoseconds()) / 1e6`: a sign, the whole part, a
point and exactly three decimals, denoting `t / 1000` for a number of
thousandths `t` that is within one half of `|ns| / 1000` when `|ns| < 2^53`. -/
theorem Trace_message_format {σ : Type} (since : Time → Duration)
    (ctx : Context) (begin : Time) (fc : World σ → (GoString × Int) × World σ)
    (err : Option GoString) (w : World σ) (r : slog.Record)
    (hr : r ∈ (Slog.Trace since elapsedMsText ctx begin fc err w).records) :
    ∃ (T R : GoString) (t : Nat) (whole : GoString),
      r.msg = lit "[" ++ T ++ lit "ms] [rows:" ++ R ++ lit "] " ++ formatSQL (fc w).1.1 ∧
      R = rowsStr (fc w).1.2 ∧
      T = elapsedMsText (since begin) ∧
      T = (if since begin < 0 then lit "-" else []) ++ whole ++ lit "." ++
        [0x30 + t / 100 % 10, 0x30 + t / 10 % 10, 0x30 + t % 10] ∧
      IsDecimal whole ((t / 1000 : Nat) : Int) ∧
      ((since begin).natAbs < 2 ^ 53 →
        1000 * t ≤ (since begin).natAbs + 500 ∧ (since begin).natAbs ≤ 1000 * t + 500) := by
  obtain ⟨t, whole, h1, h2, h3⟩ := elapsedMsText_spec (since begin)
  refine ⟨elapsedMsText (since begin), rowsStr (fc w).1.2, t, whole, ?_, rfl, rfl, h1, h2, h3⟩
  rw [Trace_msg since elapsedMsText ctx begin fc err w r hr]
  rfl

/-- Witness for C11: 12,345,000 ns elapsed, 3 rows and the text `SELECT 1` give
the message `[12.345ms] [rows:3] SELECT 1`. -/
theorem Trace_message_format_witness :
    (⟨0, slog.Severity.Info, lit "[12.345ms] [rows:3] SELECT 1", []⟩ : slog.Record) ∈
      (Slog.Trace (fun _ => 12345000) elapsedMsText 0 0
        (fun (w : World Unit) => ((lit "SELECT 1", 3), w)) none
        ⟨⟨logger.Info, 0⟩, ()⟩).records ∧
    ∃ (T R : GoString) (t : Nat) (whole : GoString),
      lit "[12.345ms] [rows:3] SELECT 1" =
        lit "[" ++ T ++ lit "ms] [rows:" ++ R ++ lit "] " ++ formatSQL (lit "SELECT 1") ∧
      R = rowsStr 3 ∧
      T = elapsedMsText 12345000 ∧
      T = (if (12345000 : Int) < 0 then lit "-" else []) ++ whole ++ lit "." ++
        [0x30 + t / 100 % 10, 0x30 + t / 10 % 10, 0x30 + t % 10] ∧
      IsDecimal whole ((t / 1000 : Nat) : Int) ∧
      ((12345000 : Int).natAbs < 2 ^ 53 →
        1000 * t ≤ (12345000 : Int).natAbs + 500 ∧
          (12345000 : Int).natAbs ≤ 1000 * t + 500) :=
  ⟨by decide,
    Trace_message_format (fun _ => 12345000) 0 0
      (fun (w : World Unit) => ((lit "SELECT 1", 3), w)) none ⟨⟨logger.Info, 0⟩, ()⟩
      ⟨0, slog.Severity.Info, lit "[12.345ms] [rows:3] SELECT 1", []⟩ (by decide)⟩

end Gormlog
